import Mathlib

/-!
AdjustableArray.h: a resizable array with an accumulating error register.

A shallow embedding of the class template `AdjustableArray< DataType >` of
`AdjustableArray.h`, followed by theorems about its member functions.

Modelling decisions.

* The element type `DataType` is a type `α` with `[DataType α]`, which says how the type
  is default-initialised: a class type runs its default constructor, a scalar type (such
  as `int`) is left with the indeterminate value its storage happens to hold. Every
  function that obtains storage (`new DataType [n]`, the member `dud` of a new object)
  takes that indeterminate content as an argument (`raw`, `rawDud`), and the theorems
  hold for every such content.
* `int` is `Int`. The only arithmetic in the source is `i++` below a bound that is
  itself an `int`, and `errorCode |= 2`, `errorCode |= 4`, none of which can overflow.
* The class owns a pointer into the free store and `operator =` compares object
  addresses, so the state is a memory `Mem`: a free store of dynamic arrays, addressed
  by `Nat`, and a store of `AdjustableArray` objects, addressed by `Nat` (the `this`
  pointer). A released array stays in the free store as `none`; addresses are never
  handed out twice.
* Undefined behaviour (reading or writing outside a live array, `delete [ ]` of a
  pointer that is not live, a member call on a missing object) is the result `none`.
  Exhaustion of the free store (`std::bad_alloc`) is not modelled: `new` always succeeds.
* `operator [ ]` returns a `DataType&`; the model returns a `Ref`, which is then read
  with `Mem.load` or written with `Mem.store`. The macro `DEBUG_ADJUSTABLE_ARRAY` is
  the parameter `debug : Bool`.
-/

/-- The template parameter `DataType`, as far as the class uses it: `defaultCtor` is
`some v` for a class type whose default constructor produces the value `v`, and `none`
for a scalar type, whose default-initialisation does nothing. -/
class DataType (α : Type) where
  defaultCtor : Option α

/-- Value of a default-initialised `DataType` object whose storage held `junk`: the
default-constructed value for a class type, `junk` itself for a scalar type. -/
def initValue {α : Type} [DataType α] (junk : α) : α :=
  match (DataType.defaultCtor : Option α) with
  | some v => v
  | none => junk

/-- Cells of a new array of `n` default-initialised objects in storage that held
`raw 0`, `raw 1`, ... -/
def freshCells {α : Type} [DataType α] (raw : Nat → α) (n : Nat) : List α :=
  (List.range n).map fun i => initValue (raw i)

/-- The type `int` is a scalar type. -/
instance : DataType Int := ⟨none⟩

/-- The type `std::string` is a class type; its default constructor gives `""`. -/
instance : DataType String := ⟨some ""⟩

/-- Data members of one `AdjustableArray< DataType >` object, in the order of the class
declaration. `elements` is the address of the dynamic array in the free store. -/
structure AdjustableArray (α : Type) where
  elements : Nat
  capacity : Int
  dud : α
  errorCode : Int
deriving DecidableEq, Repr

/-- Program memory: the free store of dynamic arrays (`none` once released) and the
`AdjustableArray` objects; an address is a position in the respective list. -/
structure Mem (α : Type) where
  heap : List (Option (List α))
  objs : List (AdjustableArray α)
deriving DecidableEq, Repr

/-- What a `DataType&` returned by `operator [ ]` refers to: the member `dud` of the
object at `this`, or cell `i` of the dynamic array at address `p` (`p[i]`). -/
inductive Ref where
  | dud (this : Nat)
  | elem (p : Nat) (i : Int)
deriving DecidableEq, Repr

namespace Mem

variable {α : Type}

/-- Expression `new DataType [n]`: a new array of `n` default-initialised cells at an
address not used before, in storage that held `raw`. The member functions call it with
`n >= 1` on every path that starts from an object with `capacity >= 1`; for `n <= 0` the
model gives an array without cells. -/
def newArray [DataType α] (m : Mem α) (n : Int) (raw : Nat → α) : Nat × Mem α :=
  (m.heap.length, { m with heap := m.heap ++ [some (freshCells raw n.toNat)] })

/-- Statement `delete [ ] p`; undefined unless `p` is a live array. -/
def deleteArray (m : Mem α) (p : Nat) : Option (Mem α) :=
  match m.heap[p]? with
  | some (some _) => some { m with heap := m.heap.set p none }
  | _ => none

/-- Value of `p[i]`; undefined outside a live array. -/
def readElem (m : Mem α) (p : Nat) (i : Int) : Option α :=
  match m.heap[p]? with
  | some (some b) => if 0 ≤ i then b[i.toNat]? else none
  | _ => none

/-- Statement `p[i] = v`; undefined outside a live array. -/
def writeElem (m : Mem α) (p : Nat) (i : Int) (v : α) : Option (Mem α) :=
  match m.heap[p]? with
  | some (some b) =>
    if 0 ≤ i ∧ i < b.length then
      some { m with heap := m.heap.set p (some (b.set i.toNat v)) }
    else none
  | _ => none

/-- The object at address `this`, when there is one. -/
def getObj (m : Mem α) (this : Nat) : Option (AdjustableArray α) :=
  m.objs[this]?

/-- Overwrite the data members of the object at address `this`. -/
def setObj (m : Mem α) (this : Nat) (o : AdjustableArray α) : Mem α :=
  { m with objs := m.objs.set this o }

/-- Read through a reference. -/
def load (m : Mem α) : Ref → Option α
  | Ref.dud this => (m.getObj this).map fun t => t.dud
  | Ref.elem p i => m.readElem p i

/-- Write through a reference. -/
def store (m : Mem α) : Ref → α → Option (Mem α)
  | Ref.dud this, v => (m.getObj this).map fun t => m.setObj this { t with dud := v }
  | Ref.elem p i, v => m.writeElem p i v

end Mem

namespace AdjustableArray

variable {α : Type}

/-- Constructor `AdjustableArray( int size )`: builds a new object in `m` and returns its
address with the new memory. The member `dud` is default-initialised before the body, in
storage that held `rawDud`; the storage of the dynamic array held `raw`. -/
def construct [DataType α] (m : Mem α) (size : Int) (rawDud : α) (raw : Nat → α) :
    Nat × Mem α :=
  let (capacity, errorCode) : Int × Int :=
    if size < 1 then
      (1, 1)  -- Nonpositive size passed into constructor
    else
      (size, 0)  -- No error
  let (elements, m1) := m.newArray capacity raw
  (m1.objs.length,
    { m1 with objs := m1.objs ++ [{ elements := elements, capacity := capacity,
                                     dud := initValue rawDud, errorCode := errorCode }] })

/-- The loop `for ( int i = 0; i < limit; i++ ) dst[ i ] = src[ i ];` shared by
`changeSize` and `deepCopy`, entered with counter `i` and `n` iterations still to run
(`n = limit - i`). -/
def copyLoop (src dst : Nat) : Nat → Int → Mem α → Option (Mem α)
  | 0, _, m => some m
  | n + 1, i, m => do
    let v ← m.readElem src i
    let m1 ← m.writeElem dst i v
    copyLoop src dst n (i + 1) m1

/-- Private member `deepCopy( original )`, run on the object at `this`. Each statement
reads the members as they are when it runs. The members read by the loop (`capacity`,
`elements`, `original.elements`) are not written by it, so they are read once, just
before the loop. The storage of the new dynamic array held `raw`. -/
def deepCopy [DataType α] (m : Mem α) (this original : Nat) (raw : Nat → α) :
    Option (Mem α) := do
  -- capacity = original.capacity;
  let o ← m.getObj original
  let t ← m.getObj this
  let m := m.setObj this { t with capacity := o.capacity }
  -- errorCode = original.errorCode;
  let o ← m.getObj original
  let t ← m.getObj this
  let m := m.setObj this { t with errorCode := o.errorCode }
  -- elements = new DataType [ capacity ];
  let t ← m.getObj this
  let (p, m) := m.newArray t.capacity raw
  let m := m.setObj this { t with elements := p }
  -- for ( int i = 0; i < capacity; i++ ) elements[ i ] = original.elements[ i ];
  let o ← m.getObj original
  let t ← m.getObj this
  copyLoop o.elements t.elements t.capacity.toNat 0 m

/-- Copy constructor `AdjustableArray( const AdjustableArray& ap )`: a new object whose
`dud` is default-initialised (in storage that held `rawDud`) and whose other members are
indeterminate (here `0`) until `deepCopy( ap )` has overwritten all three of them. The
argument `ap` refers to an object that exists before the call: constructing an object as
a copy of itself would read its indeterminate members, which is undefined. -/
def copyConstruct [DataType α] (m : Mem α) (ap : Nat) (rawDud : α) (raw : Nat → α) :
    Option (Nat × Mem α) := do
  let _ ← m.getObj ap
  let this := m.objs.length
  let m0 : Mem α :=
    { m with objs := m.objs ++ [{ elements := 0, capacity := 0, dud := initValue rawDud,
                                  errorCode := 0 }] }
  let m1 ← deepCopy m0 this ap raw
  some (this, m1)

/-- Destructor `~AdjustableArray( )`: `delete [ ] elements;`. -/
def destruct (m : Mem α) (this : Nat) : Option (Mem α) := do
  let t ← m.getObj this
  m.deleteArray t.elements

/-- Member `operator [ ]( int index )`: the reference it returns and the memory after the
call. With `debug` the bounds check of `#ifdef DEBUG_ADJUSTABLE_ARRAY` is compiled in. -/
def index (debug : Bool) (m : Mem α) (this : Nat) (idx : Int) : Option (Ref × Mem α) := do
  let t ← m.getObj this
  if debug = true ∧ (idx < 0 ∨ idx ≥ t.capacity) then
    -- errorCode |= 2; return dud;
    some (Ref.dud this, m.setObj this { t with errorCode := Int.lor t.errorCode 2 })
  else
    -- return elements[index];
    some (Ref.elem t.elements idx, m)

/-- Member `changeSize( int newSize )`. The storage of the new dynamic array held `raw`. -/
def changeSize [DataType α] (m : Mem α) (this : Nat) (newSize : Int) (raw : Nat → α) :
    Option (Mem α) := do
  let t ← m.getObj this
  if newSize < 1 then
    -- errorCode |= 4; return;
    some (m.setObj this { t with errorCode := Int.lor t.errorCode 4 })
  else
    let (newArray, m1) := m.newArray newSize raw
    let limit : Int := if newSize > t.capacity then t.capacity else newSize
    let m2 ← copyLoop t.elements newArray limit.toNat 0 m1
    let m3 ← m2.deleteArray t.elements
    let t3 ← m3.getObj this
    some (m3.setObj this { t3 with elements := newArray, capacity := newSize })

/-- Member `length( ) const`. -/
def length (m : Mem α) (this : Nat) : Option Int :=
  (m.getObj this).map fun t => t.capacity

/-- The message `err( )` builds from a value of `errorCode`. -/
def errMsg (errorCode : Int) : String :=
  if errorCode = 0 then
    "No error.\n"
  else
    let s0 := ""
    let s1 :=
      if Int.land errorCode 1 ≠ 0 then
        (s0 ++ "Nonpositive size passed into constructor, so\n")
          ++ "the capacity was set to 1 by default.\n"
      else s0
    let s2 :=
      if Int.land errorCode 2 ≠ 0 then
        s1 ++ "Invalid index was used\n"
      else s1
    let s3 :=
      if Int.land errorCode 4 ≠ 0 then
        (s2 ++ "Invalid index was used, so\n")
          ++ "the size of the array was not changed.\n"
      else s2
    s3

/-- Member `err( ) const`. -/
def err (m : Mem α) (this : Nat) : Option String :=
  (m.getObj this).map fun t => errMsg t.errorCode

/-- Member `operator =( right )`, run on the object at `this`. The reference it returns
is `*this`, so only the memory after the call is returned. The storage of the new
dynamic array held `raw`. -/
def assign [DataType α] (m : Mem α) (this right : Nat) (raw : Nat → α) : Option (Mem α) :=
  if this = right then
    some m
  else do
    let t ← m.getObj this
    let m1 ← m.deleteArray t.elements
    deepCopy m1 this right raw

/-- The statement `x = a[ idx ];`: the value read and the memory after the call. -/
def get (debug : Bool) (m : Mem α) (this : Nat) (idx : Int) : Option (α × Mem α) := do
  let (r, m1) ← index debug m this idx
  let v ← m1.load r
  some (v, m1)

/-- The statement `a[ idx ] = v;`. -/
def put (debug : Bool) (m : Mem α) (this : Nat) (idx : Int) (v : α) : Option (Mem α) := do
  let (r, m1) ← index debug m this idx
  m1.store r v

/-- Value of the error register of the object at `this`. -/
def errorCodeOf (m : Mem α) (this : Nat) : Option Int :=
  (m.getObj this).map fun t => t.errorCode

/-- Value of the sentinel `dud` of the object at `this`. -/
def dudOf (m : Mem α) (this : Nat) : Option α :=
  (m.getObj this).map fun t => t.dud

/-- Value held by `elements[ i ]` of the object at `this`; `none` when the cell is not
inside a live array. -/
def elemAt (m : Mem α) (this : Nat) (i : Int) : Option α := do
  let t ← m.getObj this
  m.readElem t.elements i

/-- The object at `this` exists, `capacity >= 1`, and `elements` points to a live dynamic
array of exactly `capacity` cells. -/
def WellFormed (m : Mem α) (this : Nat) : Prop :=
  match m.getObj this with
  | some t =>
    match m.heap[t.elements]? with
    | some (some b) => 1 ≤ t.capacity ∧ (b.length : Int) = t.capacity
    | _ => False
  | none => False

instance (m : Mem α) (this : Nat) : Decidable (WellFormed m this) := by
  unfold WellFormed
  split
  · split <;> infer_instance
  · infer_instance

/-- The objects at `a` and `b` own different dynamic arrays. -/
def Separate (m : Mem α) (a b : Nat) : Prop :=
  match m.getObj a, m.getObj b with
  | some ta, some tb => ta.elements ≠ tb.elements
  | _, _ => False

instance (m : Mem α) (a b : Nat) : Decidable (Separate m a b) := by
  unfold Separate
  split <;> infer_instance

/-- A memory holding one array of capacity 5 with elements `[1,2,3,4,5]`. -/
def mem5 : Mem Int :=
  { heap := [some [1, 2, 3, 4, 5]],
    objs := [{ elements := 0, capacity := 5, dud := 0, errorCode := 0 }] }

/-- A memory holding one array of capacity 3 with elements `[1,2,3]`. -/
def mem3 : Mem Int :=
  { heap := [some [1, 2, 3]],
    objs := [{ elements := 0, capacity := 3, dud := 0, errorCode := 0 }] }

/-- A memory holding two arrays: at address 0 capacity 3 with elements `[1,2,3]` and
error register 2, at address 1 capacity 2 with elements `[7,8]` and error register 5. -/
def mem2 : Mem Int :=
  { heap := [some [1, 2, 3], some [7, 8]],
    objs := [{ elements := 0, capacity := 3, dud := 0, errorCode := 2 },
             { elements := 1, capacity := 2, dud := 0, errorCode := 5 }] }

/-- The array at `x` looks the same in `m2` as in `m1`: same capacity, same error
register, same sentinel, and the same value (or none) at every index. -/
def SameArray (m1 m2 : Mem α) (x : Nat) : Prop :=
  length m2 x = length m1 x ∧ errorCodeOf m2 x = errorCodeOf m1 x ∧
    dudOf m2 x = dudOf m1 x ∧ ∀ j : Int, elemAt m2 x j = elemAt m1 x j

/-- One use of the class by a client, in the debug configuration: a constructor call, a
copy construction from the object at `ap`, or a member call on the object at `this`.
The uses that obtain storage carry what that storage held. -/
inductive Op (α : Type) where
  | construct (size : Int) (rawDud : α) (raw : Nat → α)
  | copyConstruct (ap : Nat) (rawDud : α) (raw : Nat → α)
  | assign (this right : Nat) (raw : Nat → α)
  | read (this : Nat) (idx : Int)
  | write (this : Nat) (idx : Int) (v : α)
  | changeSize (this : Nat) (newSize : Int) (raw : Nat → α)
  | length (this : Nat)
  | err (this : Nat)

/-- Memory after one use of the class; the values returned to the client are dropped.
The members `length( )` and `err( )` are `const` and return the memory they were given. -/
def step [DataType α] (m : Mem α) : Op α → Option (Mem α)
  | Op.construct size rawDud raw => some (construct m size rawDud raw).2
  | Op.copyConstruct ap rawDud raw => (copyConstruct m ap rawDud raw).map fun r => r.2
  | Op.assign this right raw => assign m this right raw
  | Op.read this idx => (get true m this idx).map fun r => r.2
  | Op.write this idx v => put true m this idx v
  | Op.changeSize this newSize raw => changeSize m this newSize raw
  | Op.length this => (length m this).map fun _ => m
  | Op.err this => (err m this).map fun _ => m

/-- Memory after a sequence of uses, left to right. -/
def run [DataType α] : Mem α → List (Op α) → Option (Mem α)
  | m, [] => some m
  | m, op :: ops => (step m op).bind fun m1 => run m1 ops

/-- The memories a client can reach: a constructor call in the empty memory, then any
sequence of uses. -/
def Reachable [DataType α] (m : Mem α) : Prop :=
  ∃ (size : Int) (rawDud : α) (raw : Nat → α) (ops : List (Op α)),
    run (construct ⟨[], []⟩ size rawDud raw).2 ops = some m

/-- The objects an operation names exist in `m`. -/
def Op.Valid (m : Mem α) : Op α → Prop
  | Op.construct _ _ _ => True
  | Op.copyConstruct ap _ _ => ap < m.objs.length
  | Op.assign this right _ => this < m.objs.length ∧ right < m.objs.length
  | Op.read this _ => this < m.objs.length
  | Op.write this _ _ => this < m.objs.length
  | Op.changeSize this _ _ => this < m.objs.length
  | Op.length this => this < m.objs.length
  | Op.err this => this < m.objs.length

/-- Representation invariant of a memory: every object has `capacity >= 1`, points to a
live dynamic array of exactly `capacity` cells and has an error register in `0 .. 7`;
two different objects point to different dynamic arrays. -/
def MemInv (m : Mem α) : Prop :=
  (∀ (a : Nat) (t : AdjustableArray α), m.getObj a = some t →
    ∃ b : List α, m.heap[t.elements]? = some (some b) ∧ 1 ≤ t.capacity ∧
      (b.length : Int) = t.capacity ∧ 0 ≤ t.errorCode ∧ t.errorCode ≤ 7) ∧
  (∀ (a b : Nat) (ta tb : AdjustableArray α), a ≠ b →
    m.getObj a = some ta → m.getObj b = some tb → ta.elements ≠ tb.elements)

/-- Sentence `err( )` appends for flag 1. -/
def flag1Sentence : String :=
  "Nonpositive size passed into constructor, so\nthe capacity was set to 1 by default.\n"

/-- Sentence `err( )` appends for flag 2. -/
def flag2Sentence : String :=
  "Invalid index was used\n"

/-- Sentence `err( )` appends for flag 4. -/
def flag4Sentence : String :=
  "Invalid index was used, so\nthe size of the array was not changed.\n"

/-- The message of `err( )` as the specification words it: `"No error.\n"` for register
0, otherwise the sentences of the flags that are set, in the order 1, 2, 4. -/
def errSpec (e : Int) : String :=
  if e = 0 then "No error.\n"
  else
    (if e.testBit 0 then flag1Sentence else "") ++
    ((if e.testBit 1 then flag2Sentence else "") ++
     (if e.testBit 2 then flag4Sentence else ""))

/-- In the debug configuration the sentinel of `a` holds `v`, and every read of `a`
through an index outside `0 .. capacity - 1` returns `v`. -/
def ReadsDud (m : Mem α) (a : Nat) (v : α) : Prop :=
  dudOf m a = some v ∧
  ∀ k c : Int, length m a = some c → (k < 0 ∨ c ≤ k) →
    ∃ m2 : Mem α, get true m a k = some (v, m2)

/-- Storage content used in the examples: cell `i` held `40 + i`. -/
def junk : Nat → Int := fun i => 40 + i

/-- A client program run after `AdjustableArray< int > a( 3 )`: an in-range write, an
out-of-range write, a rejected and an accepted resize, a copy construction, a
construction with a nonpositive size, an assignment, and the two queries. -/
def opsR : List (Op Int) :=
  [Op.write 0 1 7, Op.write 0 9 4, Op.changeSize 0 0 junk, Op.changeSize 0 2 junk,
   Op.copyConstruct 0 13 junk, Op.construct (-1) 13 junk, Op.assign 1 2 junk, Op.read 2 5,
   Op.length 0, Op.err 1]

/-- The memory after `AdjustableArray< int > a( 3 )`, built in storage that held `13`
for the sentinel and `junk` for the cells, followed by `opsR`. -/
def memR : Mem Int :=
  { heap := [none, some [40, 7], none, some [40], some [40]],
    objs := [{ elements := 1, capacity := 2, dud := 4, errorCode := 6 },
             { elements := 4, capacity := 1, dud := 13, errorCode := 1 },
             { elements := 3, capacity := 1, dud := 13, errorCode := 3 }] }

/-! ## Memory lemmas -/

section MemoryLemmas

@[simp] theorem heap_setObj (m : Mem α) (this : Nat) (o : AdjustableArray α) :
    (m.setObj this o).heap = m.heap := rfl

@[simp] theorem objs_setObj (m : Mem α) (this : Nat) (o : AdjustableArray α) :
    (m.setObj this o).objs = m.objs.set this o := rfl

theorem getObj_setObj_same (m : Mem α) (this : Nat) (t o : AdjustableArray α)
    (h : m.getObj this = some t) : (m.setObj this o).getObj this = some o := by
  have hlt : this < m.objs.length := by
    by_contra hc
    have : m.objs[this]? = none := List.getElem?_eq_none (by omega)
    simp [Mem.getObj, this] at h
  simp [Mem.getObj, Mem.setObj, List.getElem?_set, hlt]

theorem getObj_setObj_ne (m : Mem α) (this other : Nat) (o : AdjustableArray α)
    (h : this ≠ other) : (m.setObj this o).getObj other = m.getObj other := by
  simp [Mem.getObj, Mem.setObj, List.getElem?_set, h]

theorem getObj_lt (m : Mem α) (this : Nat) (t : AdjustableArray α)
    (h : m.getObj this = some t) : this < m.objs.length := by
  by_contra hc
  have : m.objs[this]? = none := List.getElem?_eq_none (by omega)
  simp [Mem.getObj, this] at h

theorem wellFormed_iff (m : Mem α) (this : Nat) :
    WellFormed m this ↔
      ∃ t b, m.getObj this = some t ∧ m.heap[t.elements]? = some (some b) ∧
        1 ≤ t.capacity ∧ (b.length : Int) = t.capacity := by
  unfold WellFormed
  constructor
  · intro h
    split at h
    · rename_i t ht
      split at h
      · rename_i b hb
        exact ⟨t, b, ht, hb, h.1, h.2⟩
      · exact h.elim
    · exact h.elim
  · rintro ⟨t, b, ht, hb, h1, h2⟩
    simp [ht, hb, h1, h2]

theorem heap_lt (m : Mem α) (p : Nat) (b : Option (List α))
    (h : m.heap[p]? = some b) : p < m.heap.length := by
  by_contra hc
  have : m.heap[p]? = none := List.getElem?_eq_none (by omega)
  simp [this] at h

theorem list_set_self {β : Type} (l : List β) (i : Nat) (a : β) (h : l[i]? = some a) :
    l.set i a = l := by
  apply List.ext_getElem?
  intro j
  by_cases hij : i = j
  · subst hij
    have hlt : i < l.length := by
      by_contra hc
      have : l[i]? = none := List.getElem?_eq_none (by omega)
      simp [this] at h
    simp [List.getElem?_set, hlt, h]
  · simp [List.getElem?_set, hij]

theorem elemAt_eq (m : Mem α) (this : Nat) (t : AdjustableArray α) (b : List α) (i : Int)
    (ht : m.getObj this = some t) (hb : m.heap[t.elements]? = some (some b)) (hi : 0 ≤ i) :
    elemAt m this i = b[i.toNat]? := by
  simp [elemAt, ht, Mem.readElem, hb, hi]

theorem elemAt_neg (m : Mem α) (this : Nat) (i : Int) (hi : ¬ 0 ≤ i) :
    elemAt m this i = none := by
  cases ht : m.getObj this with
  | none => simp [elemAt, ht]
  | some t =>
    simp only [elemAt, ht, Option.bind_eq_bind, Option.some_bind, Mem.readElem]
    split
    · simp [hi]
    · rfl

/-- The copy loop from counter `i` for `n` iterations, between two different live arrays
that are both long enough: it succeeds, changes only the destination array, and
overwrites exactly the cells `i .. i + n - 1` of it with those of the source. -/
theorem copyLoop_spec (src dst : Nat) (hne : src ≠ dst) (xs : List α) :
    ∀ (n i : Nat) (m : Mem α) (ys : List α),
      m.heap[src]? = some (some xs) → m.heap[dst]? = some (some ys) →
      i + n ≤ xs.length → i + n ≤ ys.length →
      ∃ zs, copyLoop src dst n (i : Int) m = some { m with heap := m.heap.set dst (some zs) } ∧
        zs.length = ys.length ∧
        ∀ j : Nat, zs[j]? = if i ≤ j ∧ j < i + n then xs[j]? else ys[j]? := by
  intro n
  induction n with
  | zero =>
    intro i m ys _ hd _ _
    refine ⟨ys, ?_, rfl, ?_⟩
    · simp [copyLoop, list_set_self _ _ _ hd]
    · intro j
      have hr : ¬ (i ≤ j ∧ j < i) := by omega
      simp [hr]
  | succ n ih =>
    intro i m ys hs hd hx hy
    have hix : i < xs.length := by omega
    have hiy : i < ys.length := by omega
    have hdlt : dst < m.heap.length := heap_lt m dst _ hd
    have hread : m.readElem src (i : Int) = some xs[i] := by
      simp [Mem.readElem, hs, List.getElem?_eq_getElem hix]
    have hwrite : m.writeElem dst (i : Int) xs[i] =
        some { m with heap := m.heap.set dst (some (ys.set i xs[i])) } := by
      simp [Mem.writeElem, hd, hiy]
    obtain ⟨zs, hz, hlen, hget⟩ :=
      ih (i + 1) { m with heap := m.heap.set dst (some (ys.set i xs[i])) } (ys.set i xs[i])
        (by simpa [List.getElem?_set, Ne.symm hne] using hs)
        (by simp [List.getElem?_set, hdlt])
        (by omega) (by simp; omega)
    refine ⟨zs, ?_, by simpa using hlen, ?_⟩
    · have hcast : ((i : Int) + 1) = ((i + 1 : Nat) : Int) := by push_cast; rfl
      simp only [copyLoop, hread, hwrite, Option.bind_eq_bind, Option.some_bind, hcast, hz]
      simp [List.set_set]
    · intro j
      rw [hget j]
      by_cases hji : j = i
      · subst hji
        have h1 : ¬ (j + 1 ≤ j ∧ j < j + 1 + n) := by omega
        have h2 : j ≤ j ∧ j < j + (n + 1) := by omega
        simp [h1, h2, List.getElem?_set, hiy, List.getElem?_eq_getElem hix]
      · by_cases hr : i ≤ j ∧ j < i + (n + 1)
        · have h1 : i + 1 ≤ j ∧ j < i + 1 + n := by omega
          simp [h1, hr]
        · have h1 : ¬ (i + 1 ≤ j ∧ j < i + 1 + n) := by omega
          simp [h1, hr, List.getElem?_set, Ne.symm hji]

theorem length_freshCells [DataType α] (raw : Nat → α) (n : Nat) :
    (freshCells raw n).length = n := by
  simp [freshCells]

theorem getElem?_freshCells [DataType α] (raw : Nat → α) (n j : Nat) :
    (freshCells raw n)[j]? = if j < n then some (initValue (raw j)) else none := by
  by_cases h : j < n
  · simp [freshCells, h, List.getElem?_range h]
  · have : (freshCells raw n)[j]? = none :=
      List.getElem?_eq_none (by rw [length_freshCells]; omega)
    simp [h, this]

end MemoryLemmas

/-! ## The constructor -/

section Constructor

variable [DataType α]

theorem construct_fst (m : Mem α) (size : Int) (rawDud : α) (raw : Nat → α) :
    (construct m size rawDud raw).1 = m.objs.length := by
  unfold construct
  split
  rfl

theorem construct_getObj (m : Mem α) (size : Int) (rawDud : α) (raw : Nat → α) :
    (construct m size rawDud raw).2.getObj (construct m size rawDud raw).1 =
      some { elements := m.heap.length, capacity := if size < 1 then 1 else size,
             dud := initValue rawDud, errorCode := if size < 1 then 1 else 0 } := by
  unfold construct
  by_cases h : size < 1 <;> simp [h, Mem.newArray, Mem.getObj]

/-- C1: for every `size >= 1`, the array built by `AdjustableArray( size )` has
`length( ) == size`, error register `0`, and `err( )` equal to `"No error.\n"`. -/
theorem construct_valid_size (m : Mem α) (size : Int) (rawDud : α) (raw : Nat → α)
    (h : 1 ≤ size) :
    length (construct m size rawDud raw).2 (construct m size rawDud raw).1 = some size ∧
    errorCodeOf (construct m size rawDud raw).2 (construct m size rawDud raw).1 = some 0 ∧
    err (construct m size rawDud raw).2 (construct m size rawDud raw).1 = some "No error.\n" := by
  have hs : ¬ size < 1 := by omega
  simp [length, errorCodeOf, err, construct_getObj, hs, errMsg]

/-- Witness for C1: `AdjustableArray< int > a( 3 )` in an empty memory, in storage that
held `13` for the sentinel and `junk` for the cells. -/
theorem construct_valid_size_witness :
    (1 : Int) ≤ 3 ∧
    length (construct (⟨[], []⟩ : Mem Int) 3 13 junk).2
      (construct (⟨[], []⟩ : Mem Int) 3 13 junk).1 = some 3 ∧
    errorCodeOf (construct (⟨[], []⟩ : Mem Int) 3 13 junk).2
      (construct (⟨[], []⟩ : Mem Int) 3 13 junk).1 = some 0 ∧
    err (construct (⟨[], []⟩ : Mem Int) 3 13 junk).2
      (construct (⟨[], []⟩ : Mem Int) 3 13 junk).1 = some "No error.\n" :=
  ⟨by decide, construct_valid_size (⟨[], []⟩ : Mem Int) 3 13 junk (by decide)⟩

/-- C2: for every `size <= 0`, the array built by `AdjustableArray( size )` has
`length( ) == 1`, error register exactly `1`, and `err( )` equal to the flag-1 sentence,
which mentions the capacity forced to 1. -/
theorem construct_nonpositive_size (m : Mem α) (size : Int) (rawDud : α) (raw : Nat → α)
    (h : size ≤ 0) :
    length (construct m size rawDud raw).2 (construct m size rawDud raw).1 = some 1 ∧
    errorCodeOf (construct m size rawDud raw).2 (construct m size rawDud raw).1 = some 1 ∧
    err (construct m size rawDud raw).2 (construct m size rawDud raw).1 =
      some "Nonpositive size passed into constructor, so\nthe capacity was set to 1 by default.\n" := by
  have hs : size < 1 := by omega
  have he : errMsg 1 =
      "Nonpositive size passed into constructor, so\nthe capacity was set to 1 by default.\n" := by
    decide
  simp [length, errorCodeOf, err, construct_getObj, hs, he]

/-- Witness for C2: `AdjustableArray< int > a( -2 )` in an empty memory. -/
theorem construct_nonpositive_size_witness :
    (-2 : Int) ≤ 0 ∧
    length (construct (⟨[], []⟩ : Mem Int) (-2) 13 junk).2
      (construct (⟨[], []⟩ : Mem Int) (-2) 13 junk).1 = some 1 ∧
    errorCodeOf (construct (⟨[], []⟩ : Mem Int) (-2) 13 junk).2
      (construct (⟨[], []⟩ : Mem Int) (-2) 13 junk).1 = some 1 ∧
    err (construct (⟨[], []⟩ : Mem Int) (-2) 13 junk).2
      (construct (⟨[], []⟩ : Mem Int) (-2) 13 junk).1 =
      some "Nonpositive size passed into constructor, so\nthe capacity was set to 1 by default.\n" :=
  ⟨by decide, construct_nonpositive_size (⟨[], []⟩ : Mem Int) (-2) 13 junk (by decide)⟩

end Constructor

/-! ## changeSize -/

section ChangeSize

variable [DataType α]

/-- Closed form of `changeSize` with `newSize >= 1` on an object whose `elements` is a
live array `xs`: the new array `zs` is allocated at the next free address, the old one
is released, and `zs` holds the first `min newSize capacity` cells of `xs` followed by
default-initialised cells. -/
theorem changeSize_resize_eq (m : Mem α) (this : Nat) (newSize : Int) (raw : Nat → α)
    (t : AdjustableArray α) (xs : List α)
    (ht : m.getObj this = some t) (hb : m.heap[t.elements]? = some (some xs))
    (hlen : (xs.length : Int) = t.capacity) (h : 1 ≤ newSize) :
    ∃ zs : List α,
      changeSize m this newSize raw =
        some { heap := (m.heap ++ [some zs]).set t.elements none,
               objs := m.objs.set this
                 { t with elements := m.heap.length, capacity := newSize } } ∧
      zs.length = newSize.toNat ∧
      ∀ j : Nat, zs[j]? =
        if j < (min newSize t.capacity).toNat then xs[j]?
        else if j < newSize.toNat then some (initValue (raw j)) else none := by
  have hlt : t.elements < m.heap.length := heap_lt m _ _ hb
  have hne : t.elements ≠ m.heap.length := by omega
  have hlim : (if newSize > t.capacity then t.capacity else newSize) = min newSize t.capacity := by
    split <;> omega
  obtain ⟨zs, hz, hzl, hzg⟩ :=
    copyLoop_spec t.elements m.heap.length hne xs (min newSize t.capacity).toNat 0
      { m with heap := m.heap ++ [some (freshCells raw newSize.toNat)] }
      (freshCells raw newSize.toNat)
      (by simpa [List.getElem?_append_left hlt] using hb)
      (by simp)
      (by omega) (by rw [length_freshCells]; omega)
  refine ⟨zs, ?_, by simpa [length_freshCells] using hzl, ?_⟩
  · have hs : ¬ newSize < 1 := by omega
    simp only [Nat.cast_zero] at hz
    simp only [changeSize, ht, hs, Mem.newArray, hlim, hz, Option.bind_eq_bind,
      Option.some_bind, if_false]
    have hset : (m.heap ++ [some (freshCells raw newSize.toNat)]).set m.heap.length
        (some zs) = m.heap ++ [some zs] := by
      simp [List.set_append]
    have hget : (m.heap ++ [some zs])[t.elements]? = some (some xs) := by
      simpa [List.getElem?_append_left hlt] using hb
    have ht2 : m.objs[this]? = some t := ht
    simp [hset, Mem.deleteArray, hget, Mem.getObj, Mem.setObj, ht2]
  · intro j
    rw [hzg j]
    by_cases hj : j < (min newSize t.capacity).toNat
    · simp [hj]
    · simp [hj, getElem?_freshCells]

/-- What can be observed after `changeSize` with `newSize >= 1`: the object points to a
new live array `zs` of `newSize` cells, every other object and every other live array is
as before. -/
theorem changeSize_resize_obs (m : Mem α) (this : Nat) (newSize : Int) (raw : Nat → α)
    (t : AdjustableArray α) (xs : List α)
    (ht : m.getObj this = some t) (hb : m.heap[t.elements]? = some (some xs))
    (hlen : (xs.length : Int) = t.capacity) (h : 1 ≤ newSize) :
    ∃ (m' : Mem α) (zs : List α),
      changeSize m this newSize raw = some m' ∧
      m'.getObj this = some { t with elements := m.heap.length, capacity := newSize } ∧
      m'.heap[m.heap.length]? = some (some zs) ∧
      zs.length = newSize.toNat ∧
      (∀ j : Nat, zs[j]? =
        if j < (min newSize t.capacity).toNat then xs[j]?
        else if j < newSize.toNat then some (initValue (raw j)) else none) ∧
      (∀ p : Nat, p ≠ t.elements → p ≠ m.heap.length → m'.heap[p]? = m.heap[p]?) ∧
      (∀ q : Nat, q ≠ this → m'.getObj q = m.getObj q) ∧
      m'.heap.length = m.heap.length + 1 ∧ m'.objs.length = m.objs.length := by
  obtain ⟨zs, hz, hzl, hzg⟩ := changeSize_resize_eq m this newSize raw t xs ht hb hlen h
  have hlt : t.elements < m.heap.length := heap_lt m _ _ hb
  have hne : t.elements ≠ m.heap.length := by omega
  have hthis : this < m.objs.length := getObj_lt m this t ht
  refine ⟨_, zs, hz, ?_, ?_, hzl, hzg, ?_, ?_, ?_, ?_⟩
  · simp [Mem.getObj, List.getElem?_set, hthis]
  · simp [List.getElem?_set, hne]
  · intro p hp1 hp2
    by_cases hp : p < m.heap.length
    · simp [List.getElem?_set, Ne.symm hp1, List.getElem?_append_left hp]
    · have h1 : (m.heap)[p]? = none := List.getElem?_eq_none (by omega)
      have h2 : (m.heap ++ [some zs])[p]? = none :=
        List.getElem?_eq_none (by simp; omega)
      simp [List.getElem?_set, Ne.symm hp1, h1, h2]
  · intro q hq
    simp [Mem.getObj, List.getElem?_set, Ne.symm hq]
  · simp
  · simp

/-- C3: for every array `a` and every `newSize >= 1`, after `a.changeSize( newSize )`
`length( ) == newSize`, every element at an index `0 <= i < min(newSize, old capacity)`
is the element `i` held before the call, and the error register is as before. -/
theorem changeSize_keeps_prefix (m : Mem α) (a : Nat) (newSize : Int) (raw : Nat → α)
    (hwf : WellFormed m a) (h : 1 ≤ newSize) :
    ∃ m' : Mem α, changeSize m a newSize raw = some m' ∧
      length m' a = some newSize ∧
      (∀ c : Int, length m a = some c → ∀ i : Int, 0 ≤ i → i < min newSize c →
        ∃ x : α, elemAt m a i = some x ∧ elemAt m' a i = some x) ∧
      errorCodeOf m' a = errorCodeOf m a := by
  obtain ⟨t, xs, ht, hb, _, hlen⟩ := (wellFormed_iff m a).1 hwf
  obtain ⟨m', zs, hm, hobj, hheap, _, hzg, _⟩ :=
    changeSize_resize_obs m a newSize raw t xs ht hb hlen h
  refine ⟨m', hm, by simp [length, hobj], ?_, by simp [errorCodeOf, hobj, ht]⟩
  intro c hc i hi0 hi
  have hct : c = t.capacity := by
    simp [length, ht] at hc
    exact hc.symm
  subst hct
  have hix : i.toNat < xs.length := by omega
  refine ⟨xs[i.toNat], ?_, ?_⟩
  · rw [elemAt_eq m a t xs i ht hb hi0, List.getElem?_eq_getElem hix]
  · rw [elemAt_eq m' a _ zs i hobj hheap hi0, hzg i.toNat]
    have hlim : i.toNat < (min newSize t.capacity).toNat := by omega
    simp [hlim, List.getElem?_eq_getElem hix]

/-- Witness for C3: capacity 5 holding `[1,2,3,4,5]`, then `changeSize( 3 )`; the memory
after the call holds the array `[1,2,3]` and capacity 3. -/
theorem changeSize_keeps_prefix_witness :
    (WellFormed mem5 0 ∧ (1 : Int) ≤ 3) ∧
    changeSize mem5 0 3 junk =
      some { heap := [none, some [1, 2, 3]],
             objs := [{ elements := 1, capacity := 3, dud := 0, errorCode := 0 }] } ∧
    ∃ m' : Mem Int, changeSize mem5 0 3 junk = some m' ∧
      length m' 0 = some 3 ∧
      (∀ c : Int, length mem5 0 = some c → ∀ i : Int, 0 ≤ i → i < min 3 c →
        ∃ x : Int, elemAt mem5 0 i = some x ∧ elemAt m' 0 i = some x) ∧
      errorCodeOf m' 0 = errorCodeOf mem5 0 :=
  ⟨⟨by decide, by decide⟩, by decide,
    changeSize_keeps_prefix mem5 0 3 junk (by decide) (by decide)⟩

/-- C5: for every array `a` and every `newSize <= 0`, `a.changeSize( newSize )` succeeds,
leaves the capacity, the free store and every element as before, and the new error
register is the old one bitwise-OR 4: flag 4 is set and every flag set before is still
set. -/
theorem changeSize_nonpositive (m : Mem α) (a : Nat) (newSize : Int) (raw : Nat → α)
    (hwf : WellFormed m a) (h : newSize ≤ 0) :
    ∃ m' : Mem α, changeSize m a newSize raw = some m' ∧
      length m' a = length m a ∧
      m'.heap = m.heap ∧
      (∀ i : Int, elemAt m' a i = elemAt m a i) ∧
      ∃ e : Int, errorCodeOf m a = some e ∧ errorCodeOf m' a = some (Int.lor e 4) ∧
        (Int.lor e 4).testBit 2 = true ∧
        ∀ k : Nat, e.testBit k = true → (Int.lor e 4).testBit k = true := by
  obtain ⟨t, xs, ht, hb, _, _⟩ := (wellFormed_iff m a).1 hwf
  have hs : newSize < 1 := by omega
  have hobj : (m.setObj a { t with errorCode := Int.lor t.errorCode 4 }).getObj a =
      some { t with errorCode := Int.lor t.errorCode 4 } :=
    getObj_setObj_same m a t _ ht
  refine ⟨m.setObj a { t with errorCode := Int.lor t.errorCode 4 }, ?_, ?_, rfl, ?_, ?_⟩
  · simp [changeSize, ht, hs]
  · simp [length, hobj, ht]
  · intro i
    simp [elemAt, hobj, ht, Mem.readElem]
  · refine ⟨t.errorCode, by simp [errorCodeOf, ht], by simp [errorCodeOf, hobj], ?_, ?_⟩
    · rw [Int.testBit_lor]
      have : (4 : Int).testBit 2 = true := by decide
      simp [this]
    · intro k hk
      rw [Int.testBit_lor, hk]
      rfl

/-- Witness for C5: capacity 5 holding `[1,2,3,4,5]`, then `changeSize( 0 )`. -/
theorem changeSize_nonpositive_witness :
    (WellFormed mem5 0 ∧ (0 : Int) ≤ 0) ∧
    changeSize mem5 0 0 junk =
      some { heap := [some [1, 2, 3, 4, 5]],
             objs := [{ elements := 0, capacity := 5, dud := 0, errorCode := 4 }] } ∧
    ∃ m' : Mem Int, changeSize mem5 0 0 junk = some m' ∧
      length m' 0 = length mem5 0 ∧
      m'.heap = mem5.heap ∧
      (∀ i : Int, elemAt m' 0 i = elemAt mem5 0 i) ∧
      ∃ e : Int, errorCodeOf mem5 0 = some e ∧ errorCodeOf m' 0 = some (Int.lor e 4) ∧
        (Int.lor e 4).testBit 2 = true ∧
        ∀ k : Nat, e.testBit k = true → (Int.lor e 4).testBit k = true :=
  ⟨⟨by decide, by decide⟩, by decide,
    changeSize_nonpositive mem5 0 0 junk (by decide) (by decide)⟩

end ChangeSize

/-! ## operator [ ] -/

section Index

theorem length_eq_some (m : Mem α) (a : Nat) (t : AdjustableArray α) (c : Int)
    (ht : m.getObj a = some t) (hc : length m a = some c) : t.capacity = c := by
  simpa [length, ht] using hc

/-- An index inside `0 .. capacity - 1` passes the bounds check (when compiled in):
`operator [ ]` returns `elements[index]` and leaves the memory as it is. -/
theorem index_in_range_eq (debug : Bool) (m : Mem α) (a : Nat) (t : AdjustableArray α)
    (i : Int) (ht : m.getObj a = some t) (h0 : 0 ≤ i) (h1 : i < t.capacity) :
    index debug m a i = some (Ref.elem t.elements i, m) := by
  have hr : ¬ (debug = true ∧ (i < 0 ∨ i ≥ t.capacity)) := by
    rintro ⟨_, h | h⟩ <;> omega
  simp [index, ht, hr]

theorem get_in_range_eq (debug : Bool) (m : Mem α) (a : Nat) (t : AdjustableArray α)
    (xs : List α) (i : Int) (ht : m.getObj a = some t)
    (hb : m.heap[t.elements]? = some (some xs)) (h0 : 0 ≤ i) (h1 : i < t.capacity) :
    get debug m a i = (xs[i.toNat]?).map fun x => (x, m) := by
  simp [get, index_in_range_eq debug m a t i ht h0 h1, Mem.load, Mem.readElem, hb, h0]
  cases xs[i.toNat]? <;> rfl

theorem put_in_range_eq (debug : Bool) (m : Mem α) (a : Nat) (t : AdjustableArray α)
    (xs : List α) (i : Int) (v : α) (ht : m.getObj a = some t)
    (hb : m.heap[t.elements]? = some (some xs)) (hlen : (xs.length : Int) = t.capacity)
    (h0 : 0 ≤ i) (h1 : i < t.capacity) :
    put debug m a i v =
      some { m with heap := m.heap.set t.elements (some (xs.set i.toNat v)) } := by
  have hr : 0 ≤ i ∧ i < (xs.length : Int) := by omega
  simp [put, index_in_range_eq debug m a t i ht h0 h1, Mem.store, Mem.writeElem, hb, hr]

/-- C6: in the debug configuration, for every array `a` and every index `i` with `i < 0`
or `i >= capacity`, `a[i]` returns a reference to the sentinel `dud`, not to a cell of
the dynamic array; the new error register is the old one bitwise-OR 2; the capacity, the
sentinel and the whole free store are unchanged; and a later `a[j]` with
`0 <= j < capacity` reads the real element `j`. -/
theorem index_out_of_range_debug (m : Mem α) (a : Nat) (i c : Int)
    (hwf : WellFormed m a) (hc : length m a = some c) (hi : i < 0 ∨ c ≤ i) :
    ∃ m' : Mem α, index true m a i = some (Ref.dud a, m') ∧
      (∃ d : α, dudOf m a = some d ∧ m'.load (Ref.dud a) = some d) ∧
      (∃ e : Int, errorCodeOf m a = some e ∧ errorCodeOf m' a = some (Int.lor e 2)) ∧
      length m' a = some c ∧
      m'.heap = m.heap ∧
      (∀ j : Int, elemAt m' a j = elemAt m a j) ∧
      (∀ j : Int, 0 ≤ j → j < c →
        ∃ x : α, elemAt m a j = some x ∧ get true m' a j = some (x, m')) := by
  obtain ⟨t, xs, ht, hb, _, hlen⟩ := (wellFormed_iff m a).1 hwf
  have hct := length_eq_some m a t c ht hc
  subst hct
  have hobj : (m.setObj a { t with errorCode := Int.lor t.errorCode 2 }).getObj a =
      some { t with errorCode := Int.lor t.errorCode 2 } :=
    getObj_setObj_same m a t _ ht
  have hr : (i < 0 ∨ t.capacity ≤ i) := hi
  refine ⟨m.setObj a { t with errorCode := Int.lor t.errorCode 2 }, ?_, ?_, ?_, ?_, rfl, ?_, ?_⟩
  · simp [index, ht, hr]
  · exact ⟨t.dud, by simp [dudOf, ht], by simp [Mem.load, hobj]⟩
  · exact ⟨t.errorCode, by simp [errorCodeOf, ht], by simp [errorCodeOf, hobj]⟩
  · simp [length, hobj]
  · intro j
    simp [elemAt, hobj, ht, Mem.readElem]
  · intro j hj0 hj1
    have hjx : j.toNat < xs.length := by omega
    refine ⟨xs[j.toNat], ?_, ?_⟩
    · rw [elemAt_eq m a t xs j ht hb hj0, List.getElem?_eq_getElem hjx]
    · rw [get_in_range_eq true _ a _ xs j hobj (by simpa using hb) hj0 hj1,
        List.getElem?_eq_getElem hjx]
      rfl

/-- Witness for C6: capacity 5 holding `[1,2,3,4,5]`, index `-1`; index `5` (the
capacity) gives the same result. -/
theorem index_out_of_range_debug_witness :
    (WellFormed mem5 0 ∧ length mem5 0 = some 5 ∧ ((-1 : Int) < 0 ∨ (5 : Int) ≤ -1)) ∧
    index true mem5 0 5 =
      some (Ref.dud 0, { heap := [some [1, 2, 3, 4, 5]],
                         objs := [{ elements := 0, capacity := 5, dud := 0, errorCode := 2 }] }) ∧
    ∃ m' : Mem Int, index true mem5 0 (-1) = some (Ref.dud 0, m') ∧
      (∃ d : Int, dudOf mem5 0 = some d ∧ m'.load (Ref.dud 0) = some d) ∧
      (∃ e : Int, errorCodeOf mem5 0 = some e ∧ errorCodeOf m' 0 = some (Int.lor e 2)) ∧
      length m' 0 = some 5 ∧
      m'.heap = mem5.heap ∧
      (∀ j : Int, elemAt m' 0 j = elemAt mem5 0 j) ∧
      (∀ j : Int, 0 ≤ j → j < 5 →
        ∃ x : Int, elemAt mem5 0 j = some x ∧ get true m' 0 j = some (x, m')) :=
  ⟨⟨by decide, by decide, by decide⟩, by decide,
    index_out_of_range_debug mem5 0 (-1) 5 (by decide) (by decide) (by decide)⟩

/-- C7: in both configurations, for every array `a` and every index `0 <= i < capacity`,
`a[i]` is a reference to cell `i` of the dynamic array and the call changes nothing;
reading `a[i]` gives element `i` and changes nothing; after writing `v` through `a[i]`,
reading `a[i]` gives `v`, every element at an index `j != i` is as before, and the
capacity, the error register and all objects are as before. -/
theorem index_in_range (debug : Bool) (m : Mem α) (a : Nat) (i c : Int) (v : α)
    (hwf : WellFormed m a) (hc : length m a = some c) (h0 : 0 ≤ i) (h1 : i < c) :
    (∃ p : Nat, (m.getObj a).map (fun t => t.elements) = some p ∧
      index debug m a i = some (Ref.elem p i, m)) ∧
    (∃ x : α, elemAt m a i = some x ∧ get debug m a i = some (x, m)) ∧
    ∃ m' : Mem α, put debug m a i v = some m' ∧
      get debug m' a i = some (v, m') ∧
      elemAt m' a i = some v ∧
      (∀ j : Int, j ≠ i → elemAt m' a j = elemAt m a j) ∧
      length m' a = some c ∧
      errorCodeOf m' a = errorCodeOf m a ∧
      m'.objs = m.objs := by
  obtain ⟨t, xs, ht, hb, _, hlen⟩ := (wellFormed_iff m a).1 hwf
  have hct := length_eq_some m a t c ht hc
  subst hct
  have hix : i.toNat < xs.length := by omega
  have hplt : t.elements < m.heap.length := heap_lt m _ _ hb
  have ht' : ({ m with heap := m.heap.set t.elements (some (xs.set i.toNat v)) } : Mem α).getObj a
      = some t := ht
  have hb' : ({ m with heap := m.heap.set t.elements (some (xs.set i.toNat v)) } : Mem α).heap[
      t.elements]? = some (some (xs.set i.toNat v)) := by
    simp [List.getElem?_set, hplt]
  refine ⟨⟨t.elements, by simp [ht], index_in_range_eq debug m a t i ht h0 h1⟩,
    ⟨xs[i.toNat], ?_, ?_⟩,
    _, put_in_range_eq debug m a t xs i v ht hb hlen h0 h1, ?_, ?_, ?_, ?_, ?_, rfl⟩
  · rw [elemAt_eq m a t xs i ht hb h0, List.getElem?_eq_getElem hix]
  · rw [get_in_range_eq debug m a t xs i ht hb h0 h1, List.getElem?_eq_getElem hix]
    rfl
  · rw [get_in_range_eq debug _ a t _ i ht' hb' h0 h1]
    simp [List.getElem?_set, hix]
  · rw [elemAt_eq _ a t _ i ht' hb' h0]
    simp [List.getElem?_set, hix]
  · intro j hj
    by_cases hj0 : 0 ≤ j
    · rw [elemAt_eq _ a t _ j ht' hb' hj0, elemAt_eq m a t xs j ht hb hj0]
      have hne : i.toNat ≠ j.toNat := by omega
      simp [List.getElem?_set, hne]
    · rw [elemAt_neg _ _ j hj0, elemAt_neg _ _ j hj0]
  · simp [length, ht']
  · simp [errorCodeOf, ht', ht]

/-- Witness for C7: capacity 5 holding `[1,2,3,4,5]`, `a[2] = 9` in the release
configuration; the array then holds `[1,2,9,4,5]`. -/
theorem index_in_range_witness :
    (WellFormed mem5 0 ∧ length mem5 0 = some 5 ∧ (0 : Int) ≤ 2 ∧ (2 : Int) < 5) ∧
    put false mem5 0 2 9 =
      some { heap := [some [1, 2, 9, 4, 5]],
             objs := [{ elements := 0, capacity := 5, dud := 0, errorCode := 0 }] } ∧
    ((∃ p : Nat, (mem5.getObj 0).map (fun t => t.elements) = some p ∧
      index false mem5 0 2 = some (Ref.elem p 2, mem5)) ∧
    (∃ x : Int, elemAt mem5 0 2 = some x ∧ get false mem5 0 2 = some (x, mem5)) ∧
    ∃ m' : Mem Int, put false mem5 0 2 9 = some m' ∧
      get false m' 0 2 = some (9, m') ∧
      elemAt m' 0 2 = some 9 ∧
      (∀ j : Int, j ≠ 2 → elemAt m' 0 j = elemAt mem5 0 j) ∧
      length m' 0 = some 5 ∧
      errorCodeOf m' 0 = errorCodeOf mem5 0 ∧
      m'.objs = mem5.objs) :=
  ⟨⟨by decide, by decide, by decide, by decide⟩, by decide,
    index_in_range false mem5 0 2 5 9 (by decide) (by decide) (by decide) (by decide)⟩

theorem sameArray_of (m1 m2 : Mem α) (x : Nat) (hobj : m2.getObj x = m1.getObj x)
    (hheap : ∀ t, m1.getObj x = some t → m2.heap[t.elements]? = m1.heap[t.elements]?) :
    SameArray m1 m2 x := by
  refine ⟨by simp [length, hobj], by simp [errorCodeOf, hobj], by simp [dudOf, hobj], ?_⟩
  intro j
  cases hx : m1.getObj x with
  | none => simp [elemAt, hobj, hx]
  | some t => simp [elemAt, hobj, hx, Mem.readElem, hheap t hx]

theorem separate_iff (m : Mem α) (a b : Nat) :
    Separate m a b ↔
      ∃ ta tb, m.getObj a = some ta ∧ m.getObj b = some tb ∧ ta.elements ≠ tb.elements := by
  unfold Separate
  constructor
  · intro h
    split at h
    · rename_i ta tb ha hb
      exact ⟨ta, tb, ha, hb, h⟩
    · exact h.elim
  · rintro ⟨ta, tb, ha, hb, h⟩
    simp [ha, hb, h]

/-- A write through an in-range `x[i]` does not change an array that owns another
dynamic array. -/
theorem put_frame (debug : Bool) (m : Mem α) (x y : Nat) (i c : Int) (v : α)
    (hwf : WellFormed m x) (hsep : Separate m x y)
    (hc : length m x = some c) (h0 : 0 ≤ i) (h1 : i < c) :
    ∃ m2 : Mem α, put debug m x i v = some m2 ∧ elemAt m2 x i = some v ∧
      SameArray m m2 y := by
  obtain ⟨t, xs, ht, hb, _, hlen⟩ := (wellFormed_iff m x).1 hwf
  obtain ⟨tx, ty, htx, hty, hp⟩ := (separate_iff m x y).1 hsep
  have hct := length_eq_some m x t c ht hc
  subst hct
  have htt : tx = t := by
    rw [ht] at htx
    exact (Option.some.inj htx).symm
  subst htt
  have hplt : tx.elements < m.heap.length := heap_lt m _ _ hb
  have hix : i.toNat < xs.length := by omega
  have ht' : ({ m with heap := m.heap.set tx.elements (some (xs.set i.toNat v)) } : Mem α).getObj x
      = some tx := ht
  have hb' : ({ m with heap := m.heap.set tx.elements (some (xs.set i.toNat v)) } : Mem α).heap[
      tx.elements]? = some (some (xs.set i.toNat v)) := by
    simp [List.getElem?_set, hplt]
  refine ⟨_, put_in_range_eq debug m x tx xs i v ht hb hlen h0 h1, ?_, ?_⟩
  · rw [elemAt_eq _ x tx _ i ht' hb' h0]
    simp [List.getElem?_set, hix]
  · apply sameArray_of
    · rfl
    · intro t2 ht2
      have : t2 = ty := by
        rw [hty] at ht2
        exact (Option.some.inj ht2).symm
      subst this
      simp [List.getElem?_set, hp]

end Index

/-! ## deepCopy, the copy constructor and operator = -/

section Copy

variable [DataType α]

theorem deepCopy_eq (m : Mem α) (this original : Nat) (raw : Nat → α)
    (t o : AdjustableArray α)
    (xs : List α) (hne : this ≠ original)
    (ht : m.getObj this = some t) (ho : m.getObj original = some o)
    (hb : m.heap[o.elements]? = some (some xs)) (hlen : (xs.length : Int) = o.capacity) :
    deepCopy m this original raw =
      some { heap := m.heap ++ [some xs],
             objs := m.objs.set this
               { t with elements := m.heap.length, capacity := o.capacity,
                        errorCode := o.errorCode } } := by
  have hlt : o.elements < m.heap.length := heap_lt m _ _ hb
  have hne2 : o.elements ≠ m.heap.length := by omega
  have hthis : this < m.objs.length := getObj_lt m this t ht
  have ht2 : m.objs[this]? = some t := ht
  have ho2 : m.objs[original]? = some o := ho
  obtain ⟨zs, hz, hzl, hzg⟩ :=
    copyLoop_spec o.elements m.heap.length hne2 xs o.capacity.toNat 0
      { heap := m.heap ++ [some (freshCells raw o.capacity.toNat)],
        objs := m.objs.set this
               { t with elements := m.heap.length, capacity := o.capacity,
                        errorCode := o.errorCode } }
      (freshCells raw o.capacity.toNat)
      (by simpa [List.getElem?_append_left hlt] using hb)
      (by simp)
      (by omega) (by rw [length_freshCells]; omega)
  have hzx : zs = xs := by
    apply List.ext_getElem?
    intro j
    rw [hzg j]
    by_cases hj : j < o.capacity.toNat
    · simp [hj]
    · have h1 : xs[j]? = none := List.getElem?_eq_none (by omega)
      simp [hj, h1, getElem?_freshCells]
  subst hzx
  simp only [Nat.cast_zero] at hz
  simp [deepCopy, Mem.getObj, Mem.setObj, Mem.newArray, List.getElem?_set, hne, Ne.symm hne,
    hthis, ht2, ho2]
  rw [hz]
  simp [List.set_append]

/-- A `changeSize` call on `x` does not change another array that owns another live
dynamic array. -/
theorem changeSize_frame (m : Mem α) (x y : Nat) (newSize : Int) (raw : Nat → α)
    (hxy : x ≠ y)
    (hwf : WellFormed m x) (hwfy : WellFormed m y) (hsep : Separate m x y) :
    ∃ m2 : Mem α, changeSize m x newSize raw = some m2 ∧ SameArray m m2 y := by
  obtain ⟨t, xs, ht, hb, _, hlen⟩ := (wellFormed_iff m x).1 hwf
  obtain ⟨ty, ys, hty, hby, _, _⟩ := (wellFormed_iff m y).1 hwfy
  obtain ⟨tx, ty2, htx, hty2, hp⟩ := (separate_iff m x y).1 hsep
  have htt : tx = t := by
    rw [ht] at htx
    exact (Option.some.inj htx).symm
  have htt2 : ty2 = ty := by
    rw [hty] at hty2
    exact (Option.some.inj hty2).symm
  subst htt
  subst htt2
  have hylt : ty2.elements < m.heap.length := heap_lt m _ _ hby
  by_cases hs : newSize < 1
  · refine ⟨m.setObj x { tx with errorCode := Int.lor tx.errorCode 4 }, ?_, ?_⟩
    · simp [changeSize, ht, hs]
    · apply sameArray_of
      · exact getObj_setObj_ne m x y _ hxy
      · intro _ _
        rfl
  · obtain ⟨m2, zs, hm, _, _, _, _, hheap, hobjs, _⟩ :=
      changeSize_resize_obs m x newSize raw tx xs ht hb hlen (by omega)
    refine ⟨m2, hm, ?_⟩
    apply sameArray_of
    · exact hobjs y (Ne.symm hxy)
    · intro t2 ht2
      have : t2 = ty2 := by
        rw [hty] at ht2
        exact (Option.some.inj ht2).symm
      subst this
      exact hheap _ (Ne.symm hp) (by omega)

/-- Closed form of the copy constructor on a source whose `elements` is a live array
`xs` of `capacity` cells. -/
theorem copyConstruct_eq (m : Mem α) (ap : Nat) (rawDud : α) (raw : Nat → α)
    (o : AdjustableArray α) (xs : List α)
    (ho : m.getObj ap = some o) (hb : m.heap[o.elements]? = some (some xs))
    (hlen : (xs.length : Int) = o.capacity) :
    copyConstruct m ap rawDud raw =
      some (m.objs.length,
        { heap := m.heap ++ [some xs],
          objs := m.objs ++ [{ elements := m.heap.length, capacity := o.capacity,
                               dud := initValue rawDud, errorCode := o.errorCode }] }) := by
  have hap : ap < m.objs.length := getObj_lt m ap o ho
  have ho2 : m.objs[ap]? = some o := ho
  have hd := deepCopy_eq
    { m with objs := m.objs ++ [{ elements := 0, capacity := 0, dud := initValue rawDud,
                                  errorCode := 0 }] }
    m.objs.length ap raw
    { elements := 0, capacity := 0, dud := initValue rawDud, errorCode := 0 } o xs
    (by omega) (by simp [Mem.getObj])
    (by simp [Mem.getObj, List.getElem?_append_left hap, ho2]) hb hlen
  simp [copyConstruct, ho, hd, List.set_append]

/-- What can be observed after copy construction from a well-formed array `a`. -/
theorem copyConstruct_obs (m : Mem α) (a : Nat) (rawDud : α) (raw : Nat → α)
    (t : AdjustableArray α) (xs : List α)
    (ht : m.getObj a = some t) (hb : m.heap[t.elements]? = some (some xs))
    (hlen : (xs.length : Int) = t.capacity) :
    ∃ m1 : Mem α, copyConstruct m a rawDud raw = some (m.objs.length, m1) ∧
      a ≠ m.objs.length ∧
      m1.getObj a = some t ∧
      m1.getObj m.objs.length =
        some { elements := m.heap.length, capacity := t.capacity,
               dud := initValue rawDud, errorCode := t.errorCode } ∧
      m1.heap[t.elements]? = some (some xs) ∧
      m1.heap[m.heap.length]? = some (some xs) ∧
      t.elements ≠ m.heap.length := by
  have hap : a < m.objs.length := getObj_lt m a t ht
  have hplt : t.elements < m.heap.length := heap_lt m _ _ hb
  have ht2 : m.objs[a]? = some t := ht
  refine ⟨_, copyConstruct_eq m a rawDud raw t xs ht hb hlen, by omega, ?_, ?_, ?_, ?_, by omega⟩
  · simp [Mem.getObj, List.getElem?_append_left hap, ht2]
  · simp [Mem.getObj]
  · simp [List.getElem?_append_left hplt, hb]
  · simp

/-- C8: for every array `a`, the copy-constructed array `b` has the capacity of `a`, the
error register of `a` (verbatim), and at every index `0 <= i < capacity` the element `a`
has there. -/
theorem copyConstruct_copies (m : Mem α) (a : Nat) (rawDud : α) (raw : Nat → α)
    (hwf : WellFormed m a) :
    ∃ (b : Nat) (m1 : Mem α), copyConstruct m a rawDud raw = some (b, m1) ∧
      length m1 b = length m a ∧
      errorCodeOf m1 b = errorCodeOf m a ∧
      ∀ c : Int, length m a = some c → ∀ i : Int, 0 ≤ i → i < c →
        ∃ x : α, elemAt m a i = some x ∧ elemAt m1 b i = some x := by
  obtain ⟨t, xs, ht, hb, _, hlen⟩ := (wellFormed_iff m a).1 hwf
  obtain ⟨m1, hm, _, _, hobj, _, hheap, _⟩ := copyConstruct_obs m a rawDud raw t xs ht hb hlen
  refine ⟨m.objs.length, m1, hm, by simp [length, hobj, ht], by simp [errorCodeOf, hobj, ht], ?_⟩
  intro c hc i h0 h1
  have hct := length_eq_some m a t c ht hc
  subst hct
  have hix : i.toNat < xs.length := by omega
  refine ⟨xs[i.toNat], ?_, ?_⟩
  · rw [elemAt_eq m a t xs i ht hb h0, List.getElem?_eq_getElem hix]
  · rw [elemAt_eq m1 _ _ xs i hobj hheap h0, List.getElem?_eq_getElem hix]

/-- Witness for C8: copy of the array at address 1 of `mem2` (capacity 2, elements
`[7,8]`, error register 5). -/
theorem copyConstruct_copies_witness :
    WellFormed mem2 1 ∧
    copyConstruct mem2 1 13 junk =
      some (2, { heap := [some [1, 2, 3], some [7, 8], some [7, 8]],
                 objs := [{ elements := 0, capacity := 3, dud := 0, errorCode := 2 },
                          { elements := 1, capacity := 2, dud := 0, errorCode := 5 },
                          { elements := 2, capacity := 2, dud := 13, errorCode := 5 }] }) ∧
    ∃ (b : Nat) (m1 : Mem Int), copyConstruct mem2 1 13 junk = some (b, m1) ∧
      length m1 b = length mem2 1 ∧
      errorCodeOf m1 b = errorCodeOf mem2 1 ∧
      ∀ c : Int, length mem2 1 = some c → ∀ i : Int, 0 ≤ i → i < c →
        ∃ x : Int, elemAt mem2 1 i = some x ∧ elemAt m1 b i = some x :=
  ⟨by decide, by decide, copyConstruct_copies mem2 1 13 junk (by decide)⟩

/-- C9: deep-copy independence. For every array `a` and the array `b` copy-constructed
from it: writing `v` through an in-range `a[i]` changes `a[i]` to `v` and leaves the
capacity, error register, sentinel and every element of `b` as they were, and the same
with `a` and `b` exchanged; a `changeSize` call (with any argument) on one of the two
leaves the other as it was. -/
theorem copy_independent (debug : Bool) (m : Mem α) (a : Nat) (rawDud : α)
    (raw : Nat → α) (hwf : WellFormed m a) :
    ∃ (b : Nat) (m1 : Mem α), copyConstruct m a rawDud raw = some (b, m1) ∧ b ≠ a ∧
      (∀ (c i : Int) (v : α), length m a = some c → 0 ≤ i → i < c →
        (∃ m2 : Mem α, put debug m1 a i v = some m2 ∧ elemAt m2 a i = some v ∧
          SameArray m1 m2 b) ∧
        (∃ m2 : Mem α, put debug m1 b i v = some m2 ∧ elemAt m2 b i = some v ∧
          SameArray m1 m2 a)) ∧
      (∀ (newSize : Int) (cells : Nat → α),
        (∃ m2 : Mem α, changeSize m1 a newSize cells = some m2 ∧ SameArray m1 m2 b) ∧
        (∃ m2 : Mem α, changeSize m1 b newSize cells = some m2 ∧ SameArray m1 m2 a)) := by
  obtain ⟨t, xs, ht, hb, hcap, hlen⟩ := (wellFormed_iff m a).1 hwf
  obtain ⟨m1, hm, hne, hobja, hobjb, hheapa, hheapb, hp⟩ := copyConstruct_obs m a rawDud raw t xs ht hb hlen
  have hwa : WellFormed m1 a := (wellFormed_iff m1 a).2 ⟨t, xs, hobja, hheapa, hcap, hlen⟩
  have hwb : WellFormed m1 m.objs.length :=
    (wellFormed_iff m1 _).2 ⟨_, xs, hobjb, hheapb, hcap, hlen⟩
  have hsab : Separate m1 a m.objs.length :=
    (separate_iff m1 _ _).2 ⟨_, _, hobja, hobjb, hp⟩
  have hsba : Separate m1 m.objs.length a :=
    (separate_iff m1 _ _).2 ⟨_, _, hobjb, hobja, Ne.symm hp⟩
  refine ⟨m.objs.length, m1, hm, Ne.symm hne, ?_, ?_⟩
  · intro c i v hc h0 h1
    have hct := length_eq_some m a t c ht hc
    subst hct
    exact ⟨put_frame debug m1 a _ i t.capacity v hwa hsab (by simp [length, hobja]) h0 h1,
      put_frame debug m1 _ a i t.capacity v hwb hsba (by simp [length, hobjb]) h0 h1⟩
  · intro newSize cells
    exact ⟨changeSize_frame m1 a _ newSize cells hne hwa hwb hsab,
      changeSize_frame m1 _ a newSize cells (Ne.symm hne) hwb hwa hsba⟩

/-- Witness for C9: copy of the array of `mem3` in the debug configuration. -/
theorem copy_independent_witness :
    WellFormed mem3 0 ∧
    ∃ (b : Nat) (m1 : Mem Int), copyConstruct mem3 0 13 junk = some (b, m1) ∧ b ≠ 0 ∧
      (∀ (c i : Int) (v : Int), length mem3 0 = some c → 0 ≤ i → i < c →
        (∃ m2 : Mem Int, put true m1 0 i v = some m2 ∧ elemAt m2 0 i = some v ∧
          SameArray m1 m2 b) ∧
        (∃ m2 : Mem Int, put true m1 b i v = some m2 ∧ elemAt m2 b i = some v ∧
          SameArray m1 m2 0)) ∧
      (∀ (newSize : Int) (cells : Nat → Int),
        (∃ m2 : Mem Int, changeSize m1 0 newSize cells = some m2 ∧ SameArray m1 m2 b) ∧
        (∃ m2 : Mem Int, changeSize m1 b newSize cells = some m2 ∧ SameArray m1 m2 0)) :=
  ⟨by decide, copy_independent true mem3 0 13 junk (by decide)⟩

/-- Closed form of `operator =` between two different objects that own different live
dynamic arrays. -/
theorem assign_eq (m : Mem α) (this right : Nat) (raw : Nat → α)
    (t o : AdjustableArray α)
    (ts xs : List α) (hne : this ≠ right)
    (ht : m.getObj this = some t) (hbt : m.heap[t.elements]? = some (some ts))
    (ho : m.getObj right = some o) (hb : m.heap[o.elements]? = some (some xs))
    (hlen : (xs.length : Int) = o.capacity) (hp : t.elements ≠ o.elements) :
    assign m this right raw =
      some { heap := m.heap.set t.elements none ++ [some xs],
             objs := m.objs.set this
               { t with elements := m.heap.length, capacity := o.capacity,
                        errorCode := o.errorCode } } := by
  have hd := deepCopy_eq { m with heap := m.heap.set t.elements none } this right raw t o xs
    hne
    ht ho (by simpa [List.getElem?_set, hp] using hb) hlen
  have ht2 : m.objs[this]? = some t := ht
  simp [assign, hne, Mem.getObj, ht2, Mem.deleteArray, hbt]
  simpa using hd

/-- C10: for every two distinct arrays `self` and `other` (each owning its own dynamic
array), after `self = other` the array `self` has the capacity of `other`, the error
register of `other` (whatever flags `self` had are overwritten), and the elements of
`other` at every index `0 <= i < capacity`: the same capacity, error register and
elements as the array copy-constructed from `other`; `other` is unchanged. -/
theorem assign_distinct (m : Mem α) (self other : Nat) (raw : Nat → α)
    (hne : self ≠ other)
    (hws : WellFormed m self) (hwo : WellFormed m other) (hsep : Separate m self other) :
    ∃ m' : Mem α, assign m self other raw = some m' ∧
      length m' self = length m other ∧
      errorCodeOf m' self = errorCodeOf m other ∧
      (∀ c : Int, length m other = some c → ∀ i : Int, 0 ≤ i → i < c →
        ∃ x : α, elemAt m other i = some x ∧ elemAt m' self i = some x) ∧
      (∀ (rawDud : α) (cells : Nat → α),
        ∃ (b : Nat) (mc : Mem α), copyConstruct m other rawDud cells = some (b, mc) ∧
          length m' self = length mc b ∧ errorCodeOf m' self = errorCodeOf mc b ∧
          ∀ i : Int, elemAt m' self i = elemAt mc b i) ∧
      SameArray m m' other := by
  obtain ⟨t, ts, ht, hbt, _, _⟩ := (wellFormed_iff m self).1 hws
  obtain ⟨o, xs, ho, hb, _, hlen⟩ := (wellFormed_iff m other).1 hwo
  obtain ⟨t2, o2, ht2, ho2, hp⟩ := (separate_iff m self other).1 hsep
  have e1 : t2 = t := by
    rw [ht] at ht2
    exact (Option.some.inj ht2).symm
  have e2 : o2 = o := by
    rw [ho] at ho2
    exact (Option.some.inj ho2).symm
  subst e1
  subst e2
  have hself : self < m.objs.length := getObj_lt m self t2 ht
  have hplt : t2.elements < m.heap.length := heap_lt m _ _ hbt
  have holt : o2.elements < m.heap.length := heap_lt m _ _ hb
  have hobj : ({ heap := m.heap.set t2.elements none ++ [some xs],
                 objs := m.objs.set self
                   { t2 with elements := m.heap.length, capacity := o2.capacity,
                             errorCode := o2.errorCode } } : Mem α).getObj self =
      some { t2 with elements := m.heap.length, capacity := o2.capacity,
                     errorCode := o2.errorCode } := by
    simp [Mem.getObj, List.getElem?_set, hself]
  have hheap : (m.heap.set t2.elements none ++ [some xs])[m.heap.length]? = some (some xs) := by
    have hl : (m.heap.set t2.elements none).length = m.heap.length := by simp
    simp [List.getElem?_append_right, hl]
  refine ⟨_, assign_eq m self other raw t2 o2 ts xs hne ht hbt ho hb hlen hp, ?_, ?_, ?_, ?_, ?_⟩
  · simp [length, hobj, ho]
  · simp [errorCodeOf, hobj, ho]
  · intro c hc i h0 h1
    have hct := length_eq_some m other o2 c ho hc
    subst hct
    have hix : i.toNat < xs.length := by omega
    refine ⟨xs[i.toNat], ?_, ?_⟩
    · rw [elemAt_eq m other o2 xs i ho hb h0, List.getElem?_eq_getElem hix]
    · rw [elemAt_eq _ self _ xs i hobj hheap h0, List.getElem?_eq_getElem hix]
  · intro rawDud cells
    obtain ⟨mc, hmc, _, _, hobjc, _, hheapc, _⟩ :=
      copyConstruct_obs m other rawDud cells o2 xs ho hb hlen
    refine ⟨m.objs.length, mc, hmc, by simp [length, hobj, hobjc],
      by simp [errorCodeOf, hobj, hobjc], ?_⟩
    intro i
    by_cases h0 : 0 ≤ i
    · rw [elemAt_eq _ self _ xs i hobj hheap h0, elemAt_eq mc _ _ xs i hobjc hheapc h0]
    · rw [elemAt_neg _ _ i h0, elemAt_neg _ _ i h0]
  · apply sameArray_of
    · simp [Mem.getObj, List.getElem?_set, hne]
    · intro t3 ht3
      have e3 : t3 = o2 := by
        rw [ho] at ht3
        exact (Option.some.inj ht3).symm
      subst e3
      have hl : t3.elements < (m.heap.set t2.elements none).length := by simpa using holt
      simp [List.getElem?_append_left hl, List.getElem?_set, hp]

/-- Witness for C10: in `mem2`, the array at address 0 (capacity 3, error register 2) is
assigned the array at address 1 (capacity 2, elements `[7,8]`, error register 5). -/
theorem assign_distinct_witness :
    ((0 : Nat) ≠ 1 ∧ WellFormed mem2 0 ∧ WellFormed mem2 1 ∧ Separate mem2 0 1) ∧
    assign mem2 0 1 junk =
      some { heap := [none, some [7, 8], some [7, 8]],
             objs := [{ elements := 2, capacity := 2, dud := 0, errorCode := 5 },
                      { elements := 1, capacity := 2, dud := 0, errorCode := 5 }] } ∧
    ∃ m' : Mem Int, assign mem2 0 1 junk = some m' ∧
      length m' 0 = length mem2 1 ∧
      errorCodeOf m' 0 = errorCodeOf mem2 1 ∧
      (∀ c : Int, length mem2 1 = some c → ∀ i : Int, 0 ≤ i → i < c →
        ∃ x : Int, elemAt mem2 1 i = some x ∧ elemAt m' 0 i = some x) ∧
      (∀ (rawDud : Int) (cells : Nat → Int),
        ∃ (b : Nat) (mc : Mem Int), copyConstruct mem2 1 rawDud cells = some (b, mc) ∧
          length m' 0 = length mc b ∧ errorCodeOf m' 0 = errorCodeOf mc b ∧
          ∀ i : Int, elemAt m' 0 i = elemAt mc b i) ∧
      SameArray mem2 m' 1 :=
  ⟨⟨by decide, by decide, by decide, by decide⟩, by decide,
    assign_distinct mem2 0 1 junk (by decide) (by decide) (by decide) (by decide)⟩

end Copy

/-! ## err( ) -/

section ErrorMessage

theorem errMsg_eq_errSpec (e : Int) (h0 : 0 ≤ e) (h7 : e ≤ 7) : errMsg e = errSpec e := by
  interval_cases e <;> decide

theorem errMsg_injective (e1 e2 : Int) (h1 : 0 ≤ e1) (h1' : e1 ≤ 7) (h2 : 0 ≤ e2)
    (h2' : e2 ≤ 7) (h : errMsg e1 = errMsg e2) : e1 = e2 := by
  revert h
  interval_cases e1 <;> interval_cases e2 <;> decide

theorem errMsg_ne_empty (e : Int) (h0 : 0 ≤ e) (h7 : e ≤ 7) : errMsg e ≠ "" := by
  interval_cases e <;> decide

theorem errorCodeOf_eq_some (m : Mem α) (a : Nat) (e : Int) (h : errorCodeOf m a = some e) :
    ∃ t : AdjustableArray α, m.getObj a = some t ∧ t.errorCode = e := by
  cases ht : m.getObj a with
  | none => simp [errorCodeOf, ht] at h
  | some t => exact ⟨t, rfl, by simpa [errorCodeOf, ht] using h⟩

/-- C12: for every error register value `e` in `0 .. 7`, `err( )` returns `"No error.\n"`
when `e == 0` and otherwise the sentences of exactly the flags set in `e`, in the order
flag 1, flag 2, flag 4; the flag-1 sentence says that the capacity was set to 1, the
flag-2 sentence that an invalid index was used, the flag-4 sentence that the size of the
array was not changed. -/
theorem err_message (m : Mem α) (a : Nat) (e : Int)
    (he : errorCodeOf m a = some e) (h0 : 0 ≤ e) (h7 : e ≤ 7) :
    err m a = some (errSpec e) ∧
    (e = 0 → err m a = some "No error.\n") ∧
    "the capacity was set to 1".toList <:+: flag1Sentence.toList ∧
    "Invalid index was used".toList <:+: flag2Sentence.toList ∧
    "the size of the array was not changed".toList <:+: flag4Sentence.toList := by
  obtain ⟨t, ht, hte⟩ := errorCodeOf_eq_some m a e he
  subst hte
  refine ⟨by simp [err, ht, errMsg_eq_errSpec _ h0 h7], ?_, by decide, by decide, by decide⟩
  intro hz
  simp [err, ht, hz, errMsg]

/-- Witness for C12: the array at address 1 of `mem2` has register 5 (flags 1 and 4). -/
theorem err_message_witness :
    (errorCodeOf mem2 1 = some 5 ∧ (0 : Int) ≤ 5 ∧ (5 : Int) ≤ 7) ∧
    err mem2 1 = some (flag1Sentence ++ flag4Sentence) ∧
    (err mem2 1 = some (errSpec 5) ∧
    ((5 : Int) = 0 → err mem2 1 = some "No error.\n") ∧
    "the capacity was set to 1".toList <:+: flag1Sentence.toList ∧
    "Invalid index was used".toList <:+: flag2Sentence.toList ∧
    "the size of the array was not changed".toList <:+: flag4Sentence.toList) :=
  ⟨⟨by decide, by decide, by decide⟩, by decide,
    err_message mem2 1 5 (by decide) (by decide) (by decide)⟩

/-- C17: `err( )` determines the set of flags: for two error registers `e1`, `e2` in
`0 .. 7`, equal messages imply `e1 = e2`. -/
theorem err_determines_flags (m1 m2 : Mem α) (a1 a2 : Nat) (e1 e2 : Int)
    (he1 : errorCodeOf m1 a1 = some e1) (he2 : errorCodeOf m2 a2 = some e2)
    (h1 : 0 ≤ e1 ∧ e1 ≤ 7) (h2 : 0 ≤ e2 ∧ e2 ≤ 7)
    (h : err m1 a1 = err m2 a2) : e1 = e2 := by
  obtain ⟨t1, ht1, hte1⟩ := errorCodeOf_eq_some m1 a1 e1 he1
  obtain ⟨t2, ht2, hte2⟩ := errorCodeOf_eq_some m2 a2 e2 he2
  subst hte1
  subst hte2
  have hm : errMsg t1.errorCode = errMsg t2.errorCode := by
    simpa [err, ht1, ht2] using h
  exact errMsg_injective _ _ h1.1 h1.2 h2.1 h2.2 hm

/-- Witness for C17: the array at address 0 of `mem2` (register 2) compared with
itself; the arrays at addresses 0 and 1 (registers 2 and 5) have different messages. -/
theorem err_determines_flags_witness :
    (errorCodeOf mem2 0 = some 2 ∧ ((0 : Int) ≤ 2 ∧ (2 : Int) ≤ 7) ∧
      err mem2 0 = err mem2 0) ∧
    err mem2 0 ≠ err mem2 1 ∧
    (2 : Int) = 2 :=
  ⟨⟨by decide, by decide, rfl⟩, by decide,
    err_determines_flags mem2 mem2 0 0 2 2 (by decide) (by decide) (by decide) (by decide) rfl⟩

end ErrorMessage

/-! ## Self-assignment and flag accumulation -/

section Accumulation

variable [DataType α]

/-- C11: self-assignment is a no-op: for every array `a`, `a = a` returns with the whole
memory as it was, so the elements, the capacity, the error register and the sentinel of
`a` are unchanged. -/
theorem assign_self (m : Mem α) (a : Nat) (raw : Nat → α) :
    ∃ m' : Mem α, assign m a a raw = some m' ∧ m' = m ∧ SameArray m m' a := by
  refine ⟨m, by simp [assign], rfl, rfl, rfl, rfl, fun _ => rfl⟩

/-- C13: for every `size <= 0` and every `newSize <= 0`, the array built by
`AdjustableArray( size )` and then given `changeSize( newSize )` has error register 5
and `err( )` is the flag-1 sentence followed by the flag-4 sentence. -/
theorem flags_accumulate (m : Mem α) (size newSize : Int) (rawDud : α) (raw cells : Nat → α)
    (hs : size ≤ 0) (hn : newSize ≤ 0) :
    ∃ m2 : Mem α,
      changeSize (construct m size rawDud raw).2 (construct m size rawDud raw).1 newSize cells
        = some m2 ∧
      errorCodeOf m2 (construct m size rawDud raw).1 = some 5 ∧
      err m2 (construct m size rawDud raw).1 = some (flag1Sentence ++ flag4Sentence) := by
  have hs1 : size < 1 := by omega
  have hn1 : newSize < 1 := by omega
  have hobj := construct_getObj m size rawDud raw
  simp only [hs1, if_true] at hobj
  have hset := getObj_setObj_same (construct m size rawDud raw).2
    (construct m size rawDud raw).1 _
    { elements := m.heap.length, capacity := 1, dud := initValue rawDud,
      errorCode := Int.lor 1 4 } hobj
  refine ⟨(construct m size rawDud raw).2.setObj (construct m size rawDud raw).1
    { elements := m.heap.length, capacity := 1, dud := initValue rawDud,
      errorCode := Int.lor 1 4 }, ?_, ?_, ?_⟩
  · simp only [changeSize, hobj, hn1, Option.bind_eq_bind, Option.some_bind, if_true]
  · simp only [errorCodeOf, hset, Option.map_some']
    decide
  · simp only [err, hset, Option.map_some']
    decide

/-- Witness for C13: `AdjustableArray< int > a( 0 ); a.changeSize( -3 );` in the empty
memory. -/
theorem flags_accumulate_witness :
    ((0 : Int) ≤ 0 ∧ (-3 : Int) ≤ 0) ∧
    ∃ m2 : Mem Int,
      changeSize (construct (⟨[], []⟩ : Mem Int) 0 13 junk).2
        (construct (⟨[], []⟩ : Mem Int) 0 13 junk).1 (-3) junk = some m2 ∧
      errorCodeOf m2 (construct (⟨[], []⟩ : Mem Int) 0 13 junk).1 = some 5 ∧
      err m2 (construct (⟨[], []⟩ : Mem Int) 0 13 junk).1
        = some (flag1Sentence ++ flag4Sentence) :=
  ⟨⟨by decide, by decide⟩,
    flags_accumulate (⟨[], []⟩ : Mem Int) 0 (-3) 13 junk junk (by decide) (by decide)⟩

end Accumulation

/-! ## Out-of-range access in the debug configuration and the sentinel -/

section Sentinel

theorem index_out_eq (m : Mem α) (a : Nat) (t : AdjustableArray α) (i : Int)
    (ht : m.getObj a = some t) (hi : i < 0 ∨ t.capacity ≤ i) :
    index true m a i =
      some (Ref.dud a, m.setObj a { t with errorCode := Int.lor t.errorCode 2 }) := by
  have hr : (i < 0 ∨ t.capacity ≤ i) := hi
  simp [index, ht, hr]

theorem get_out_eq (m : Mem α) (a : Nat) (t : AdjustableArray α) (i : Int)
    (ht : m.getObj a = some t) (hi : i < 0 ∨ t.capacity ≤ i) :
    get true m a i =
      some (t.dud, m.setObj a { t with errorCode := Int.lor t.errorCode 2 }) := by
  have hobj := getObj_setObj_same m a t { t with errorCode := Int.lor t.errorCode 2 } ht
  simp [get, index_out_eq m a t i ht hi, Mem.load, hobj]

theorem put_out_eq (m : Mem α) (a : Nat) (t : AdjustableArray α) (i : Int) (v : α)
    (ht : m.getObj a = some t) (hi : i < 0 ∨ t.capacity ≤ i) :
    put true m a i v =
      some (m.setObj a { t with errorCode := Int.lor t.errorCode 2, dud := v }) := by
  have hobj := getObj_setObj_same m a t { t with errorCode := Int.lor t.errorCode 2 } ht
  simp [put, index_out_eq m a t i ht hi, Mem.store, hobj]
  simp [Mem.setObj, List.set_set]

theorem testBit_lor_of (e f : Int) (k : Nat) (h : e.testBit k = true) :
    (Int.lor e f).testBit k = true := by
  rw [Int.testBit_lor, h]
  rfl

theorem readsDud_of (m : Mem α) (a : Nat) (t : AdjustableArray α)
    (ht : m.getObj a = some t) : ReadsDud m a t.dud := by
  refine ⟨by simp [dudOf, ht], ?_⟩
  intro k c hc hk
  have hct := length_eq_some m a t c ht hc
  subst hct
  exact ⟨_, get_out_eq m a t k ht hk⟩

/-- C14: in the debug configuration, for every array `a`, every index `i` with `i < 0`
or `i >= capacity` and every value `v`, the write `a[i] = v` succeeds, leaves the
capacity and the whole free store as they were, and every element at an index
`0 <= j < capacity` holds the value it held before. -/
theorem write_out_of_range_debug (m : Mem α) (a : Nat) (i c : Int) (v : α)
    (hwf : WellFormed m a) (hc : length m a = some c) (hi : i < 0 ∨ c ≤ i) :
    ∃ m' : Mem α, put true m a i v = some m' ∧
      length m' a = some c ∧
      m'.heap = m.heap ∧
      ∀ j : Int, 0 ≤ j → j < c →
        ∃ x : α, elemAt m a j = some x ∧ elemAt m' a j = some x := by
  obtain ⟨t, xs, ht, hb, _, hlen⟩ := (wellFormed_iff m a).1 hwf
  have hct := length_eq_some m a t c ht hc
  subst hct
  have hobj := getObj_setObj_same m a t
    { t with errorCode := Int.lor t.errorCode 2, dud := v } ht
  refine ⟨_, put_out_eq m a t i v ht hi, by simp [length, hobj], rfl, ?_⟩
  intro j hj0 hj1
  have hjx : j.toNat < xs.length := by omega
  refine ⟨xs[j.toNat], ?_, ?_⟩
  · rw [elemAt_eq m a t xs j ht hb hj0, List.getElem?_eq_getElem hjx]
  · rw [elemAt_eq (m.setObj a { t with errorCode := Int.lor t.errorCode 2, dud := v }) a _ xs j
      hobj (by simpa using hb) hj0, List.getElem?_eq_getElem hjx]

/-- Witness for C14: capacity 5 holding `[1,2,3,4,5]`, `a[7] = 9` in the debug
configuration; the value goes to the sentinel and flag 2 is set. -/
theorem write_out_of_range_debug_witness :
    (WellFormed mem5 0 ∧ length mem5 0 = some 5 ∧ ((7 : Int) < 0 ∨ (5 : Int) ≤ 7)) ∧
    put true mem5 0 7 9 =
      some { heap := [some [1, 2, 3, 4, 5]],
             objs := [{ elements := 0, capacity := 5, dud := 9, errorCode := 2 }] } ∧
    ∃ m' : Mem Int, put true mem5 0 7 9 = some m' ∧
      length m' 0 = some 5 ∧
      m'.heap = mem5.heap ∧
      ∀ j : Int, 0 ≤ j → j < 5 →
        ∃ x : Int, elemAt mem5 0 j = some x ∧ elemAt m' 0 j = some x :=
  ⟨⟨by decide, by decide, by decide⟩, by decide,
    write_out_of_range_debug mem5 0 7 5 9 (by decide) (by decide) (by decide)⟩

/-- C16: the error register only accumulates. For every array `a`, after an indexed
read or write `a[i]` with any index (debug configuration) and after `changeSize` with
any argument, every bit set in the error register before the call is still set;
`length( )` and `err( )` return a value and leave the whole memory as it was. -/
theorem errorCode_accumulates [DataType α] (m : Mem α) (a : Nat) (e : Int)
    (hwf : WellFormed m a) (he : errorCodeOf m a = some e) :
    (∀ i : Int, ∃ (x : α) (m' : Mem α) (e' : Int), get true m a i = some (x, m') ∧
      errorCodeOf m' a = some e' ∧ ∀ k : Nat, e.testBit k = true → e'.testBit k = true) ∧
    (∀ (i : Int) (v : α), ∃ (m' : Mem α) (e' : Int), put true m a i v = some m' ∧
      errorCodeOf m' a = some e' ∧ ∀ k : Nat, e.testBit k = true → e'.testBit k = true) ∧
    (∀ (n : Int) (raw : Nat → α), ∃ (m' : Mem α) (e' : Int), changeSize m a n raw = some m' ∧
      errorCodeOf m' a = some e' ∧ ∀ k : Nat, e.testBit k = true → e'.testBit k = true) ∧
    ((∃ c : Int, length m a = some c) ∧ step m (Op.length a) = some m) ∧
    ((∃ msg : String, err m a = some msg) ∧ step m (Op.err a) = some m) := by
  obtain ⟨t, xs, ht, hb, _, hlen⟩ := (wellFormed_iff m a).1 hwf
  have hte : t.errorCode = e := by simpa [errorCodeOf, ht] using he
  subst hte
  refine ⟨?_, ?_, ?_, ⟨⟨t.capacity, by simp [length, ht]⟩, by simp [step, length, ht]⟩,
    ⟨⟨errMsg t.errorCode, by simp [err, ht]⟩, by simp [step, err, ht]⟩⟩
  · intro i
    by_cases hin : 0 ≤ i ∧ i < t.capacity
    · have hix : i.toNat < xs.length := by omega
      refine ⟨xs[i.toNat], m, t.errorCode, ?_, he, fun _ hk => hk⟩
      rw [get_in_range_eq true m a t xs i ht hb hin.1 hin.2, List.getElem?_eq_getElem hix]
      rfl
    · have hout : i < 0 ∨ t.capacity ≤ i := by omega
      have hobj := getObj_setObj_same m a t { t with errorCode := Int.lor t.errorCode 2 } ht
      exact ⟨_, _, Int.lor t.errorCode 2, get_out_eq m a t i ht hout,
        by simp [errorCodeOf, hobj], fun k hk => testBit_lor_of _ _ k hk⟩
  · intro i v
    by_cases hin : 0 ≤ i ∧ i < t.capacity
    · refine ⟨_, t.errorCode, put_in_range_eq true m a t xs i v ht hb hlen hin.1 hin.2, ?_,
        fun _ hk => hk⟩
      exact he
    · have hout : i < 0 ∨ t.capacity ≤ i := by omega
      have hobj := getObj_setObj_same m a t
        { t with errorCode := Int.lor t.errorCode 2, dud := v } ht
      exact ⟨_, Int.lor t.errorCode 2, put_out_eq m a t i v ht hout,
        by simp [errorCodeOf, hobj], fun k hk => testBit_lor_of _ _ k hk⟩
  · intro n raw
    by_cases hs : n < 1
    · have hobj := getObj_setObj_same m a t { t with errorCode := Int.lor t.errorCode 4 } ht
      exact ⟨m.setObj a { t with errorCode := Int.lor t.errorCode 4 }, Int.lor t.errorCode 4,
        by simp [changeSize, ht, hs], by simp [errorCodeOf, hobj],
        fun k hk => testBit_lor_of _ _ k hk⟩
    · obtain ⟨m', zs, hm, hobj, _⟩ :=
        changeSize_resize_obs m a n raw t xs ht hb hlen (by omega)
      exact ⟨m', t.errorCode, hm, by simp [errorCodeOf, hobj], fun _ hk => hk⟩

/-- Witness for C16: the array at address 0 of `mem2`, whose error register is 2. -/
theorem errorCode_accumulates_witness :
    (WellFormed mem2 0 ∧ errorCodeOf mem2 0 = some 2) ∧
    ((∀ i : Int, ∃ (x : Int) (m' : Mem Int) (e' : Int), get true mem2 0 i = some (x, m') ∧
      errorCodeOf m' 0 = some e' ∧
      ∀ k : Nat, (2 : Int).testBit k = true → e'.testBit k = true) ∧
    (∀ (i : Int) (v : Int), ∃ (m' : Mem Int) (e' : Int), put true mem2 0 i v = some m' ∧
      errorCodeOf m' 0 = some e' ∧
      ∀ k : Nat, (2 : Int).testBit k = true → e'.testBit k = true) ∧
    (∀ (n : Int) (raw : Nat → Int), ∃ (m' : Mem Int) (e' : Int),
      changeSize mem2 0 n raw = some m' ∧
      errorCodeOf m' 0 = some e' ∧
      ∀ k : Nat, (2 : Int).testBit k = true → e'.testBit k = true) ∧
    ((∃ c : Int, length mem2 0 = some c) ∧ step mem2 (Op.length 0) = some mem2) ∧
    ((∃ msg : String, err mem2 0 = some msg) ∧ step mem2 (Op.err 0) = some mem2)) :=
  ⟨⟨by decide, by decide⟩, errorCode_accumulates mem2 0 2 (by decide) (by decide)⟩

/-- C19: the sentinel is one stateful cell per array. In the debug configuration, for
every array `a`, every out-of-range index `i` and every value `v`, after `a[i] = v` the
sentinel holds `v` and a read through any out-of-range index returns `v`; this still
holds after an in-range write or read, after `changeSize` with any argument, and after
an assignment to `a` from another array. -/
theorem dud_is_stateful [DataType α] (m : Mem α) (a : Nat) (i c : Int) (v : α)
    (hwf : WellFormed m a) (hc : length m a = some c) (hi : i < 0 ∨ c ≤ i) :
    ∃ m1 : Mem α, put true m a i v = some m1 ∧ ReadsDud m1 a v ∧
      (∀ (j : Int) (w : α), 0 ≤ j → j < c →
        ∃ m3 : Mem α, put true m1 a j w = some m3 ∧ ReadsDud m3 a v) ∧
      (∀ j : Int, 0 ≤ j → j < c →
        ∃ (x : α) (m3 : Mem α), get true m1 a j = some (x, m3) ∧ ReadsDud m3 a v) ∧
      (∀ (n : Int) (raw : Nat → α),
        ∃ m3 : Mem α, changeSize m1 a n raw = some m3 ∧ ReadsDud m3 a v) ∧
      (∀ (b : Nat) (raw : Nat → α), b ≠ a → WellFormed m1 b → Separate m1 a b →
        ∃ m3 : Mem α, assign m1 a b raw = some m3 ∧ ReadsDud m3 a v) := by
  obtain ⟨t, xs, ht, hb, _, hlen⟩ := (wellFormed_iff m a).1 hwf
  have hct := length_eq_some m a t c ht hc
  subst hct
  have hobj := getObj_setObj_same m a t
    { t with errorCode := Int.lor t.errorCode 2, dud := v } ht
  have hb1 : (m.setObj a { t with errorCode := Int.lor t.errorCode 2, dud := v }).heap[
      t.elements]? = some (some xs) := by simpa using hb
  refine ⟨_, put_out_eq m a t i v ht hi, readsDud_of _ a _ hobj, ?_, ?_, ?_, ?_⟩
  · intro j w hj0 hj1
    exact ⟨_, put_in_range_eq true _ a _ xs j w hobj hb1 hlen hj0 hj1,
      readsDud_of _ a { t with errorCode := Int.lor t.errorCode 2, dud := v } hobj⟩
  · intro j hj0 hj1
    have hjx : j.toNat < xs.length := by omega
    refine ⟨xs[j.toNat], _, ?_, readsDud_of _ a _ hobj⟩
    rw [get_in_range_eq true _ a _ xs j hobj hb1 hj0 hj1, List.getElem?_eq_getElem hjx]
    rfl
  · intro n raw
    by_cases hs : n < 1
    · have hobj2 := getObj_setObj_same _ a _
        { t with errorCode := Int.lor (Int.lor t.errorCode 2) 4, dud := v } hobj
      exact ⟨_, by simp [changeSize, hobj, hs], readsDud_of _ a _ hobj2⟩
    · obtain ⟨m3, zs, hm, hobj3, _⟩ :=
        changeSize_resize_obs _ a n raw _ xs hobj hb1 hlen (by omega)
      exact ⟨m3, hm, readsDud_of m3 a _ hobj3⟩
  · intro b raw hba hwb hsep
    obtain ⟨o, ys, ho, hby, _, hleny⟩ := (wellFormed_iff _ b).1 hwb
    obtain ⟨t2, o2, ht2, ho2, hp⟩ := (separate_iff _ a b).1 hsep
    have e1 : t2 = { t with errorCode := Int.lor t.errorCode 2, dud := v } := by
      rw [hobj] at ht2
      exact (Option.some.inj ht2).symm
    have e2 : o2 = o := by
      rw [ho] at ho2
      exact (Option.some.inj ho2).symm
    subst e2
    rw [e1] at hp
    have ha : a < m.objs.length := getObj_lt m a t ht
    have hres := assign_eq _ a b raw _ o2 xs ys (Ne.symm hba) hobj hb1 ho hby hleny hp
    refine ⟨_, hres, ?_⟩
    exact readsDud_of _ a
      { elements := m.heap.length, capacity := o2.capacity, dud := v,
        errorCode := o2.errorCode }
      (by simp [Mem.getObj, Mem.setObj, List.getElem?_set, ha])

/-- Witness for C19: in `mem2`, `a[-1] = 9` on the array at address 0, then the array at
address 1 is assigned to it; a read through index 5 still returns 9. -/
theorem dud_is_stateful_witness :
    (WellFormed mem2 0 ∧ length mem2 0 = some 3 ∧ ((-1 : Int) < 0 ∨ (3 : Int) ≤ -1)) ∧
    ((put true mem2 0 (-1) 9).bind fun m1 =>
      (assign m1 0 1 junk).bind fun m3 => (get true m3 0 5).map fun r => r.1) = some 9 ∧
    ∃ m1 : Mem Int, put true mem2 0 (-1) 9 = some m1 ∧ ReadsDud m1 0 9 ∧
      (∀ (j : Int) (w : Int), 0 ≤ j → j < 3 →
        ∃ m3 : Mem Int, put true m1 0 j w = some m3 ∧ ReadsDud m3 0 9) ∧
      (∀ j : Int, 0 ≤ j → j < 3 →
        ∃ (x : Int) (m3 : Mem Int), get true m1 0 j = some (x, m3) ∧ ReadsDud m3 0 9) ∧
      (∀ (n : Int) (raw : Nat → Int),
        ∃ m3 : Mem Int, changeSize m1 0 n raw = some m3 ∧ ReadsDud m3 0 9) ∧
      (∀ (b : Nat) (raw : Nat → Int), b ≠ 0 → WellFormed m1 b → Separate m1 0 b →
        ∃ m3 : Mem Int, assign m1 0 b raw = some m3 ∧ ReadsDud m3 0 9) :=
  ⟨⟨by decide, by decide, by decide⟩, by decide,
    dud_is_stateful mem2 0 (-1) 3 9 (by decide) (by decide) (by decide)⟩

end Sentinel

/-! ## Composition of resizes -/

section Compose

theorem blocks_of_sameArray (m1 m2 : Mem α) (a : Nat) (t1 t2 : AdjustableArray α)
    (b1 b2 : List α) (h1 : m1.getObj a = some t1) (h2 : m2.getObj a = some t2)
    (hb1 : m1.heap[t1.elements]? = some (some b1))
    (hb2 : m2.heap[t2.elements]? = some (some b2))
    (h : SameArray m1 m2 a) (j : Nat) : b2[j]? = b1[j]? := by
  have hj := h.2.2.2 (j : Int)
  rw [elemAt_eq m2 a t2 b2 j h2 hb2 (by omega), elemAt_eq m1 a t1 b1 j h1 hb1 (by omega)] at hj
  simpa using hj

end Compose

/-! ## The representation invariant -/

section Invariant

theorem list_concat_ne {β : Type} (l : List β) (x : β) (q : Nat) (hq : q ≠ l.length) :
    (l ++ [x])[q]? = l[q]? := by
  by_cases h : q < l.length
  · exact List.getElem?_append_left h
  · have h1 : l[q]? = none := List.getElem?_eq_none (by omega)
    have h2 : (l ++ [x])[q]? = none := List.getElem?_eq_none (by simp; omega)
    rw [h1, h2]

theorem lor_two_bound (e : Int) (h0 : 0 ≤ e) (h7 : e ≤ 7) :
    0 ≤ Int.lor e 2 ∧ Int.lor e 2 ≤ 7 := by
  interval_cases e <;> decide

theorem lor_four_bound (e : Int) (h0 : 0 ≤ e) (h7 : e ≤ 7) :
    0 ≤ Int.lor e 4 ∧ Int.lor e 4 ≤ 7 := by
  interval_cases e <;> decide

theorem memInv_empty : MemInv (⟨[], []⟩ : Mem α) := by
  constructor
  · intro a t h
    simp [Mem.getObj] at h
  · intro a b ta tb _ h
    simp [Mem.getObj] at h

theorem memInv_ptr_lt (m : Mem α) (hinv : MemInv m) (q : Nat) (tq : AdjustableArray α)
    (h : m.getObj q = some tq) : tq.elements < m.heap.length := by
  obtain ⟨b, hb, _⟩ := hinv.1 q tq h
  exact heap_lt m _ _ hb

/-- One object is replaced or created and the others, with their dynamic arrays, are
left alone: the invariant carries over when the new object is well formed and points to
an array no other object points to. -/
theorem inv_update (m m' : Mem α) (this : Nat) (t' : AdjustableArray α)
    (hinv : MemInv m)
    (hobj : m'.getObj this = some t')
    (hothers : ∀ q : Nat, q ≠ this → m'.getObj q = m.getObj q)
    (hheap : ∀ (q : Nat) (tq : AdjustableArray α), q ≠ this → m.getObj q = some tq →
      m'.heap[tq.elements]? = m.heap[tq.elements]?)
    (hblock : ∃ b : List α, m'.heap[t'.elements]? = some (some b) ∧ 1 ≤ t'.capacity ∧
      (b.length : Int) = t'.capacity ∧ 0 ≤ t'.errorCode ∧ t'.errorCode ≤ 7)
    (hfresh : ∀ (q : Nat) (tq : AdjustableArray α), q ≠ this → m.getObj q = some tq →
      tq.elements ≠ t'.elements) : MemInv m' := by
  constructor
  · intro a t h
    by_cases ha : a = this
    · subst ha
      rw [hobj] at h
      have e : t' = t := Option.some.inj h
      subst e
      exact hblock
    · rw [hothers a ha] at h
      obtain ⟨b, hb, rest⟩ := hinv.1 a t h
      exact ⟨b, by rw [hheap a t ha h]; exact hb, rest⟩
  · intro a b ta tb hab h1 h2
    by_cases ha : a = this
    · subst ha
      rw [hobj] at h1
      have e : t' = ta := Option.some.inj h1
      subst e
      rw [hothers b (Ne.symm hab)] at h2
      exact Ne.symm (hfresh b tb (Ne.symm hab) h2)
    · rw [hothers a ha] at h1
      by_cases hb : b = this
      · subst hb
        rw [hobj] at h2
        have e : t' = tb := Option.some.inj h2
        subst e
        exact hfresh a ta ha h1
      · rw [hothers b hb] at h2
        exact hinv.2 a b ta tb hab h1 h2

/-- Overwriting data members other than `elements` and `capacity`, with an error register
still in `0 .. 7`, keeps the invariant. -/
theorem inv_setObj (m : Mem α) (this : Nat) (t t' : AdjustableArray α) (hinv : MemInv m)
    (ht : m.getObj this = some t) (hp : t'.elements = t.elements)
    (hc : t'.capacity = t.capacity) (he : 0 ≤ t'.errorCode ∧ t'.errorCode ≤ 7) :
    MemInv (m.setObj this t') := by
  obtain ⟨b, hb, hcap, hlen, _⟩ := hinv.1 this t ht
  refine inv_update m _ this t' hinv (getObj_setObj_same m this t t' ht)
    (fun q hq => getObj_setObj_ne m this q t' (Ne.symm hq)) (fun _ _ _ _ => rfl)
    ⟨b, by simpa [hp] using hb, by omega, by omega, he.1, he.2⟩ ?_
  intro q tq hq hq2
  rw [hp]
  exact hinv.2 q this tq t hq hq2 ht

/-- Overwriting one cell of the dynamic array of an object keeps the invariant. -/
theorem inv_writeElem (m : Mem α) (this : Nat) (t : AdjustableArray α) (xs : List α)
    (n : Nat) (v : α) (hinv : MemInv m) (ht : m.getObj this = some t)
    (hb : m.heap[t.elements]? = some (some xs)) :
    MemInv { m with heap := m.heap.set t.elements (some (xs.set n v)) } := by
  obtain ⟨b, hb2, hcap, hlen, he0, he7⟩ := hinv.1 this t ht
  have hbx : b = xs := by
    rw [hb] at hb2
    exact (Option.some.inj (Option.some.inj hb2)).symm
  subst hbx
  have hlt : t.elements < m.heap.length := heap_lt m _ _ hb
  refine inv_update m _ this t hinv ht (fun _ _ => rfl) ?_
    ⟨b.set n v, by simp [List.getElem?_set, hlt], hcap, by simpa using hlen, he0, he7⟩ ?_
  · intro q tq hq hq2
    have hne : t.elements ≠ tq.elements := hinv.2 this q t tq (Ne.symm hq) ht hq2
    simp [List.getElem?_set, hne]
  · intro q tq hq hq2
    exact hinv.2 q this tq t hq hq2 ht

/-- An object is replaced or created so that it points to a new dynamic array at the
next free address, while every array other than the one at `pold`, to which no other
object points, is left alone: the invariant carries over. -/
theorem inv_fresh (m m' : Mem α) (this pold : Nat) (t' : AdjustableArray α) (b : List α)
    (hinv : MemInv m) (hobj : m'.getObj this = some t')
    (hptr : t'.elements = m.heap.length)
    (hothers : ∀ q : Nat, q ≠ this → m'.getObj q = m.getObj q)
    (hold : ∀ (q : Nat) (tq : AdjustableArray α), q ≠ this → m.getObj q = some tq →
      tq.elements ≠ pold)
    (hheap : ∀ p : Nat, p ≠ pold → p ≠ m.heap.length → m'.heap[p]? = m.heap[p]?)
    (hb : m'.heap[m.heap.length]? = some (some b))
    (hcap : 1 ≤ t'.capacity) (hlen : (b.length : Int) = t'.capacity)
    (he : 0 ≤ t'.errorCode ∧ t'.errorCode ≤ 7) : MemInv m' := by
  refine inv_update m m' this t' hinv hobj hothers ?_
    ⟨b, by rw [hptr]; exact hb, hcap, hlen, he.1, he.2⟩ ?_
  · intro q tq hq hq2
    have hlt := memInv_ptr_lt m hinv q tq hq2
    exact hheap _ (hold q tq hq hq2) (by omega)
  · intro q tq hq hq2
    have hlt := memInv_ptr_lt m hinv q tq hq2
    omega

theorem construct_snd [DataType α] (m : Mem α) (size : Int) (rawDud : α) (raw : Nat → α) :
    (construct m size rawDud raw).2 =
      { heap := m.heap ++ [some (freshCells raw (if size < 1 then 1 else size).toNat)],
        objs := m.objs ++ [{ elements := m.heap.length,
                             capacity := if size < 1 then 1 else size,
                             dud := initValue rawDud, errorCode := if size < 1 then 1 else 0 }] } := by
  unfold construct
  by_cases h : size < 1 <;> simp [h, Mem.newArray]

theorem inv_construct [DataType α] (m : Mem α) (size : Int) (rawDud : α) (raw : Nat → α)
    (hinv : MemInv m) : MemInv (construct m size rawDud raw).2 := by
  rw [construct_snd]
  refine inv_fresh m _ m.objs.length m.heap.length
    { elements := m.heap.length, capacity := if size < 1 then 1 else size,
      dud := initValue rawDud, errorCode := if size < 1 then 1 else 0 }
    (freshCells raw (if size < 1 then 1 else size).toNat)
    hinv (by simp [Mem.getObj]) rfl ?_ ?_ ?_ (by simp) ?_ ?_ ?_
  · intro q hq
    exact list_concat_ne m.objs _ q hq
  · intro q tq _ hq2
    have := memInv_ptr_lt m hinv q tq hq2
    omega
  · intro p _ hp
    exact list_concat_ne m.heap _ p hp
  · show 1 ≤ (if size < 1 then 1 else size)
    split <;> omega
  · show ((freshCells raw (if size < 1 then 1 else size).toNat).length : Int)
      = (if size < 1 then 1 else size)
    rw [length_freshCells]
    split <;> omega
  · show 0 ≤ (if size < 1 then (1 : Int) else 0) ∧ (if size < 1 then (1 : Int) else 0) ≤ 7
    split <;> omega

theorem inv_copyConstruct [DataType α] (m : Mem α) (ap b : Nat) (rawDud : α)
    (raw : Nat → α) (m' : Mem α)
    (hinv : MemInv m) (h : copyConstruct m ap rawDud raw = some (b, m')) : MemInv m' := by
  cases ho : m.getObj ap with
  | none => simp [copyConstruct, ho] at h
  | some o =>
    obtain ⟨xs, hb, hcap, hlen, he0, he7⟩ := hinv.1 ap o ho
    rw [copyConstruct_eq m ap rawDud raw o xs ho hb hlen] at h
    have hm : m' = { heap := m.heap ++ [some xs],
                     objs := m.objs ++ [{ elements := m.heap.length, capacity := o.capacity,
                                          dud := initValue rawDud, errorCode := o.errorCode }] } := by
      have := Option.some.inj h
      exact (congrArg Prod.snd this).symm
    subst hm
    refine inv_fresh m _ m.objs.length m.heap.length
      { elements := m.heap.length, capacity := o.capacity, dud := initValue rawDud,
        errorCode := o.errorCode } xs
      hinv (by simp [Mem.getObj]) rfl ?_ ?_ ?_ (by simp) hcap hlen ⟨he0, he7⟩
    · intro q hq
      exact list_concat_ne m.objs _ q hq
    · intro q tq _ hq2
      have := memInv_ptr_lt m hinv q tq hq2
      omega
    · intro p _ hp
      exact list_concat_ne m.heap _ p hp

theorem inv_changeSize [DataType α] (m : Mem α) (this : Nat) (newSize : Int)
    (raw : Nat → α) (m' : Mem α)
    (hinv : MemInv m) (h : changeSize m this newSize raw = some m') : MemInv m' := by
  cases ht : m.getObj this with
  | none => simp [changeSize, ht] at h
  | some t =>
    obtain ⟨xs, hb, hcap, hlen, he0, he7⟩ := hinv.1 this t ht
    by_cases hs : newSize < 1
    · have hm : m' = m.setObj this { t with errorCode := Int.lor t.errorCode 4 } := by
        simpa [changeSize, ht, hs] using h.symm
      subst hm
      exact inv_setObj m this t _ hinv ht rfl rfl (lor_four_bound _ he0 he7)
    · obtain ⟨m2, zs, hm2, hobj, hheap, hzl, _, hframe, hothers, _⟩ :=
        changeSize_resize_obs m this newSize raw t xs ht hb hlen (by omega)
      rw [hm2] at h
      have hm : m2 = m' := Option.some.inj h
      subst hm
      refine inv_fresh m m2 this t.elements _ zs hinv hobj rfl hothers ?_ hframe hheap
        (by show 1 ≤ newSize; omega) (by show (zs.length : Int) = newSize; omega) ⟨he0, he7⟩
      intro q tq hq hq2
      exact hinv.2 q this tq t hq hq2 ht

theorem deepCopy_none [DataType α] (m : Mem α) (this original : Nat) (raw : Nat → α)
    (h : m.getObj original = none) : deepCopy m this original raw = none := by
  simp [deepCopy, h]

theorem inv_assign [DataType α] (m : Mem α) (this right : Nat) (raw : Nat → α)
    (m' : Mem α)
    (hinv : MemInv m) (h : assign m this right raw = some m') : MemInv m' := by
  by_cases hne : this = right
  · have hm : m' = m := by simpa [assign, hne] using h.symm
    subst hm
    exact hinv
  · cases ht : m.getObj this with
    | none => simp [assign, hne, ht] at h
    | some t =>
      obtain ⟨ts, hbt, _, _, _, _⟩ := hinv.1 this t ht
      cases ho : m.getObj right with
      | none =>
        have hd := deepCopy_none { m with heap := m.heap.set t.elements none } this right raw ho
        simp [assign, hne, ht, Mem.deleteArray, hbt, hd] at h
      | some o =>
        obtain ⟨xs, hb, hcap, hlen, he0, he7⟩ := hinv.1 right o ho
        have hp : t.elements ≠ o.elements := hinv.2 this right t o hne ht ho
        rw [assign_eq m this right raw t o ts xs hne ht hbt ho hb hlen hp] at h
        have hm := Option.some.inj h
        subst hm
        have hthis : this < m.objs.length := getObj_lt m this t ht
        have hl : (m.heap.set t.elements none).length = m.heap.length := by simp
        refine inv_fresh m _ this t.elements
          { t with elements := m.heap.length, capacity := o.capacity,
                   errorCode := o.errorCode } xs
          hinv (by simp [Mem.getObj, List.getElem?_set, hthis]) rfl ?_ ?_ ?_ ?_
          hcap hlen ⟨he0, he7⟩
        · intro q hq
          simp [Mem.getObj, List.getElem?_set, Ne.symm hq]
        · intro q tq hq hq2
          exact hinv.2 q this tq t hq hq2 ht
        · intro p hp1 hp2
          have e := list_concat_ne (m.heap.set t.elements none) (some xs) p (by omega)
          show (m.heap.set t.elements none ++ [some xs])[p]? = m.heap[p]?
          rw [e]
          simp [List.getElem?_set, Ne.symm hp1]
        · show (m.heap.set t.elements none ++ [some xs])[m.heap.length]? = some (some xs)
          simp [List.getElem?_append_right, hl]

theorem inv_get (m : Mem α) (this : Nat) (idx : Int) (x : α) (m' : Mem α)
    (hinv : MemInv m) (h : get true m this idx = some (x, m')) : MemInv m' := by
  cases ht : m.getObj this with
  | none => simp [get, index, ht] at h
  | some t =>
    obtain ⟨xs, hb, hcap, hlen, he0, he7⟩ := hinv.1 this t ht
    by_cases hin : 0 ≤ idx ∧ idx < t.capacity
    · rw [get_in_range_eq true m this t xs idx ht hb hin.1 hin.2] at h
      cases hx : xs[idx.toNat]? with
      | none => simp [hx] at h
      | some y =>
        have hm : m = m' := by
          simp [hx] at h
          exact h.2
        subst hm
        exact hinv
    · have hout : idx < 0 ∨ t.capacity ≤ idx := by omega
      rw [get_out_eq m this t idx ht hout] at h
      have hm : m.setObj this { t with errorCode := Int.lor t.errorCode 2 } = m' :=
        congrArg Prod.snd (Option.some.inj h)
      subst hm
      exact inv_setObj m this t _ hinv ht rfl rfl (lor_two_bound _ he0 he7)

theorem inv_put (m : Mem α) (this : Nat) (idx : Int) (v : α) (m' : Mem α)
    (hinv : MemInv m) (h : put true m this idx v = some m') : MemInv m' := by
  cases ht : m.getObj this with
  | none => simp [put, index, ht] at h
  | some t =>
    obtain ⟨xs, hb, hcap, hlen, he0, he7⟩ := hinv.1 this t ht
    by_cases hin : 0 ≤ idx ∧ idx < t.capacity
    · rw [put_in_range_eq true m this t xs idx v ht hb hlen hin.1 hin.2] at h
      have hm := Option.some.inj h
      subst hm
      exact inv_writeElem m this t xs idx.toNat v hinv ht hb
    · have hout : idx < 0 ∨ t.capacity ≤ idx := by omega
      rw [put_out_eq m this t idx v ht hout] at h
      have hm := Option.some.inj h
      subst hm
      exact inv_setObj m this t _ hinv ht rfl rfl (lor_two_bound _ he0 he7)

/-- Every use of the class keeps the invariant. -/
theorem step_inv [DataType α] (m m' : Mem α) (op : Op α) (hinv : MemInv m)
    (h : step m op = some m') : MemInv m' := by
  cases op with
  | construct size rawDud raw =>
    have hm : (construct m size rawDud raw).2 = m' := by simpa [step] using h
    subst hm
    exact inv_construct m size rawDud raw hinv
  | copyConstruct ap rawDud raw =>
    cases hc : copyConstruct m ap rawDud raw with
    | none => simp [step, hc] at h
    | some r =>
      have hm : r.2 = m' := by simpa [step, hc] using h
      subst hm
      exact inv_copyConstruct m ap r.1 rawDud raw r.2 hinv hc
  | assign this right raw => exact inv_assign m this right raw m' hinv h
  | read this idx =>
    cases hc : get true m this idx with
    | none => simp [step, hc] at h
    | some r =>
      have hm : r.2 = m' := by simpa [step, hc] using h
      subst hm
      exact inv_get m this idx r.1 r.2 hinv hc
  | write this idx v => exact inv_put m this idx v m' hinv h
  | changeSize this newSize raw => exact inv_changeSize m this newSize raw m' hinv h
  | length this =>
    cases hc : length m this with
    | none => simp [step, hc] at h
    | some c =>
      have hm : m = m' := by simpa [step, hc] using h
      subst hm
      exact hinv
  | err this =>
    cases hc : err m this with
    | none => simp [step, hc] at h
    | some c =>
      have hm : m = m' := by simpa [step, hc] using h
      subst hm
      exact hinv

theorem run_inv [DataType α] (ops : List (Op α)) :
    ∀ m m' : Mem α, MemInv m → run m ops = some m' → MemInv m' := by
  induction ops with
  | nil =>
    intro m m' hinv h
    have hm : m = m' := by simpa [run] using h
    subst hm
    exact hinv
  | cons op ops ih =>
    intro m m' hinv h
    cases hs : step m op with
    | none => simp [run, hs] at h
    | some m1 =>
      have h2 : run m1 ops = some m' := by simpa [run, hs] using h
      exact ih m1 m' (step_inv m m1 op hinv hs) h2

theorem reachable_inv [DataType α] (m : Mem α) (h : Reachable m) : MemInv m := by
  obtain ⟨size, rawDud, raw, ops, hr⟩ := h
  exact run_inv ops _ m (inv_construct _ size rawDud raw memInv_empty) hr

theorem getObj_of_lt (m : Mem α) (a : Nat) (h : a < m.objs.length) :
    ∃ t : AdjustableArray α, m.getObj a = some t :=
  ⟨m.objs[a], List.getElem?_eq_getElem h⟩

/-- No use of the class is undefined in a memory that satisfies the invariant, as long as
the objects it names exist. -/
theorem step_defined [DataType α] (m : Mem α) (op : Op α) (hinv : MemInv m)
    (hv : Op.Valid m op) : ∃ m' : Mem α, step m op = some m' := by
  apply Option.isSome_iff_exists.1
  cases op with
  | construct size rawDud raw => rfl
  | copyConstruct ap rawDud raw =>
    obtain ⟨o, ho⟩ := getObj_of_lt m ap hv
    obtain ⟨xs, hb, _, hlen, _⟩ := hinv.1 ap o ho
    simp [step, copyConstruct_eq m ap rawDud raw o xs ho hb hlen]
  | assign this right raw =>
    by_cases hne : this = right
    · simp [step, assign, hne]
    · obtain ⟨t, ht⟩ := getObj_of_lt m this hv.1
      obtain ⟨o, ho⟩ := getObj_of_lt m right hv.2
      obtain ⟨ts, hbt, _⟩ := hinv.1 this t ht
      obtain ⟨xs, hb, _, hlen, _⟩ := hinv.1 right o ho
      have hp : t.elements ≠ o.elements := hinv.2 this right t o hne ht ho
      simp [step, assign_eq m this right raw t o ts xs hne ht hbt ho hb hlen hp]
  | read this idx =>
    obtain ⟨t, ht⟩ := getObj_of_lt m this hv
    obtain ⟨xs, hb, _, hlen, _⟩ := hinv.1 this t ht
    by_cases hin : 0 ≤ idx ∧ idx < t.capacity
    · have hix : idx.toNat < xs.length := by omega
      simp [step, get_in_range_eq true m this t xs idx ht hb hin.1 hin.2,
        List.getElem?_eq_getElem hix]
    · have hout : idx < 0 ∨ t.capacity ≤ idx := by omega
      simp [step, get_out_eq m this t idx ht hout]
  | write this idx v =>
    obtain ⟨t, ht⟩ := getObj_of_lt m this hv
    obtain ⟨xs, hb, _, hlen, _⟩ := hinv.1 this t ht
    by_cases hin : 0 ≤ idx ∧ idx < t.capacity
    · simp [step, put_in_range_eq true m this t xs idx v ht hb hlen hin.1 hin.2]
    · have hout : idx < 0 ∨ t.capacity ≤ idx := by omega
      simp [step, put_out_eq m this t idx v ht hout]
  | changeSize this newSize raw =>
    obtain ⟨t, ht⟩ := getObj_of_lt m this hv
    obtain ⟨xs, hb, _, hlen, _⟩ := hinv.1 this t ht
    by_cases hs : newSize < 1
    · simp [step, changeSize, ht, hs]
    · obtain ⟨m', _, hm, _⟩ := changeSize_resize_obs m this newSize raw t xs ht hb hlen (by omega)
      simp [step, hm]
  | length this =>
    obtain ⟨t, ht⟩ := getObj_of_lt m this hv
    simp [step, length, ht]
  | err this =>
    obtain ⟨t, ht⟩ := getObj_of_lt m this hv
    simp [step, err, ht]

/-- C15: structural invariant. In every memory reachable from a constructor call by any
sequence of constructions, copy constructions, assignments, debug-checked indexed reads
and writes, `changeSize`, `length` and `err` calls, every array has `capacity >= 1` and
its `elements` points to a live dynamic array of exactly `capacity` cells. -/
theorem reachable_wellFormed [DataType α] (m : Mem α) (h : Reachable m) :
    ∀ a : Nat, a < m.objs.length →
      WellFormed m a ∧
      ∃ (t : AdjustableArray α) (b : List α), m.getObj a = some t ∧
        m.heap[t.elements]? = some (some b) ∧ 1 ≤ t.capacity ∧
        (b.length : Int) = t.capacity := by
  intro a ha
  have hinv := reachable_inv m h
  obtain ⟨t, ht⟩ := getObj_of_lt m a ha
  obtain ⟨b, hb, hcap, hlen, _⟩ := hinv.1 a t ht
  exact ⟨(wellFormed_iff m a).2 ⟨t, b, ht, hb, hcap, hlen⟩, t, b, ht, hb, hcap, hlen⟩

/-- Witness for C15: the memory `memR`, reached by the program `opsR` after
`AdjustableArray< int > a( 3 )`. -/
theorem reachable_wellFormed_witness :
    Reachable memR ∧
    ∀ a : Nat, a < memR.objs.length →
      WellFormed memR a ∧
      ∃ (t : AdjustableArray Int) (b : List Int), memR.getObj a = some t ∧
        memR.heap[t.elements]? = some (some b) ∧ 1 ≤ t.capacity ∧
        (b.length : Int) = t.capacity :=
  ⟨⟨3, 13, junk, opsR, by decide⟩, reachable_wellFormed memR ⟨3, 13, junk, opsR, by decide⟩⟩

/-- C18: in every memory reachable from a constructor call by any sequence of
constructions, copy constructions, assignments, debug-checked indexed reads and writes,
`changeSize`, `length` and `err` calls, the error register of every array is between 0
and 7, and `err( )` returns a message that is not the empty string. -/
theorem reachable_errorCode_bounded [DataType α] (m : Mem α) (h : Reachable m) :
    ∀ (a : Nat) (e : Int), errorCodeOf m a = some e →
      (0 ≤ e ∧ e ≤ 7) ∧ ∃ msg : String, err m a = some msg ∧ msg ≠ "" := by
  intro a e he
  have hinv := reachable_inv m h
  obtain ⟨t, ht, hte⟩ := errorCodeOf_eq_some m a e he
  subst hte
  obtain ⟨_, _, _, _, he0, he7⟩ := hinv.1 a t ht
  exact ⟨⟨he0, he7⟩, errMsg t.errorCode, by simp [err, ht], errMsg_ne_empty _ he0 he7⟩

/-- Witness for C18: the memory `memR`, whose arrays have the registers 6, 1 and 3. -/
theorem reachable_errorCode_bounded_witness :
    Reachable memR ∧
    errorCodeOf memR 0 = some 6 ∧
    ∀ (a : Nat) (e : Int), errorCodeOf memR a = some e →
      (0 ≤ e ∧ e ≤ 7) ∧ ∃ msg : String, err memR a = some msg ∧ msg ≠ "" :=
  ⟨⟨3, 13, junk, opsR, by decide⟩, by decide, reachable_errorCode_bounded memR ⟨3, 13, junk, opsR, by decide⟩⟩

end Invariant

end AdjustableArray
